import Mathlib

/-
Verification development for the gemini-mcp-server invocation orchestration
layer (src/gemini_mcp/gemini.py).

The Python module is shallowly embedded over lists of characters.  Python
strings become Lean `String`/`List Char`; compiled regular expressions become
executable matchers on `List Char` (each matcher mirrors one concrete pattern
of the source, including the "." metacharacter not crossing a newline and the
case-insensitivity flag, which is applied by lowercasing the haystack; the
lowering models the ASCII behaviour of the IGNORECASE flag, which is the
relevant fragment for every pattern in the source).  The external process is
modelled by an oracle `Nat → ProcResult` giving the observable result of the
k-th process invocation of an orchestration call.  Uncaught Python exceptions
(AttributeError / TypeError escaping the component) are modelled by
`Except Unit`: `.error ()` means the call raises instead of returning.
Leading underscores of the Python names are dropped where Lean prefers it.
-/

namespace GeminiMcp

/-! Character and string utilities mirroring the Python primitives used. -/

/-- Whitespace characters recognised by the regex class `\s` and by
`str.strip()` over the ASCII range. -/
def isWs (c : Char) : Bool :=
  c == ' ' || c == '\t' || c == '\n' || c == '\r' || c == '\x0b' || c == '\x0c'

/-- Lowercase a character list; models `re.IGNORECASE` over ASCII. -/
def lowerL (cs : List Char) : List Char :=
  cs.map Char.toLower

/-- Model of `str.strip()` on a character list. -/
def stripL (cs : List Char) : List Char :=
  ((cs.dropWhile (fun c => isWs c)).reverse.dropWhile (fun c => isWs c)).reverse

/-- Model of `str.strip()`. -/
def pyStrip (s : String) : String :=
  String.mk (stripL s.data)

/-- Return the remainder of `hay` after consuming `needle` as its leading
segment, or `none` when `needle` does not lead `hay`. -/
def takeAfter : List Char → List Char → Option (List Char)
  | [], hay => some hay
  | _ :: _, [] => none
  | c :: cs, d :: ds => if c == d then takeAfter cs ds else none

/-- Whether `needle` leads `hay`. -/
def matchAt : List Char → List Char → Bool
  | [], _ => true
  | _ :: _, [] => false
  | c :: cs, d :: ds => c == d && matchAt cs ds

/-- Plain substring search: `re.search` of a pattern made of literal
characters only. -/
def searchSub (w : List Char) : List Char → Bool
  | [] => matchAt w []
  | c :: cs => matchAt w (c :: cs) || searchSub w cs

/-- After the first literal of an `A.*B` pattern matched, try to match `B`
after a gap of arbitrary non-newline characters (the regex `.` does not match
a newline without `re.DOTALL`). -/
def gapThen (b : List Char) : List Char → Bool
  | [] => matchAt b []
  | c :: cs => matchAt b (c :: cs) || (!(c == '\n') && gapThen b cs)

/-- One anchored attempt of an `A.*B` pattern. -/
def gapHit (a b hay : List Char) : Bool :=
  match takeAfter a hay with
  | some r => gapThen b r
  | none => false

/-- Search for an `A.*B` pattern: `re.search(A.*B, hay)`. -/
def searchGap (a b : List Char) : List Char → Bool
  | [] => gapHit a b []
  | c :: cs => gapHit a b (c :: cs) || searchGap a b cs

/-- After the first literal of an `A.?B` pattern matched, try `B` either
immediately or after exactly one non-newline character. -/
def optGapThen (b : List Char) : List Char → Bool
  | [] => matchAt b []
  | c :: cs => matchAt b (c :: cs) || (!(c == '\n') && matchAt b cs)

/-- One anchored attempt of an `A.?B` pattern. -/
def optHit (a b hay : List Char) : Bool :=
  match takeAfter a hay with
  | some r => optGapThen b r
  | none => false

/-- Search for an `A.?B` pattern: `re.search(A.?B, hay)`. -/
def searchOptGap (a b : List Char) : List Char → Bool
  | [] => optHit a b []
  | c :: cs => optHit a b (c :: cs) || searchOptGap a b cs

/-- One anchored attempt of the bare-status-code patterns: the digits must be
followed by a `\s` character or sit at the end of the input (the regex `$`
also matches just before a final newline, which `\s` already covers). -/
def codeAt (num hay : List Char) : Bool :=
  match takeAfter num hay with
  | none => false
  | some [] => true
  | some (c :: _) => isWs c

/-- Scan for the bare-status-code patterns at positions preceded by a `\s`
character or a colon, mirroring the group `(?:^|[\s:])` at a non-initial
position. -/
def codeTail (num : List Char) : List Char → Bool
  | [] => false
  | c :: rest => ((isWs c || c == ':') && codeAt num rest) || codeTail num rest

/-- Search for `(?:^|[\s:])NUM(?:\s|$)`, the shape of the `404`, `429` and
`503` patterns of the source. -/
def codeSearch (num hay : List Char) : Bool :=
  codeAt num hay || codeTail num hay

/-! The two pattern lists of the source and the failure classifier. -/

/-- Matcher for `re.compile(r"model.*not found", re.IGNORECASE)`. -/
def patModelNotFound (cs : List Char) : Bool :=
  searchGap "model".data "not found".data (lowerL cs)

/-- Matcher for `re.compile(r"model.*does not exist", re.IGNORECASE)`. -/
def patModelNotExist (cs : List Char) : Bool :=
  searchGap "model".data "does not exist".data (lowerL cs)

/-- Matcher for `re.compile(r"model.*unavailable", re.IGNORECASE)`. -/
def patModelUnavailable (cs : List Char) : Bool :=
  searchGap "model".data "unavailable".data (lowerL cs)

/-- Matcher for `re.compile(r"(?:^|[\s:])404(?:\s|$)")`. -/
def pat404 (cs : List Char) : Bool :=
  codeSearch "404".data cs

/-- Matcher for `re.compile(r"not supported", re.IGNORECASE)`. -/
def patNotSupported (cs : List Char) : Bool :=
  searchSub "not supported".data (lowerL cs)

/-- Matcher for `re.compile(r"deprecated", re.IGNORECASE)`. -/
def patDeprecated (cs : List Char) : Bool :=
  searchSub "deprecated".data (lowerL cs)

/-- Matcher for `re.compile(r"(?:^|[\s:])429(?:\s|$)")`. -/
def pat429 (cs : List Char) : Bool :=
  codeSearch "429".data cs

/-- Matcher for `re.compile(r"rate.?limit", re.IGNORECASE)`. -/
def patRateLimit (cs : List Char) : Bool :=
  searchOptGap "rate".data "limit".data (lowerL cs)

/-- Matcher for `re.compile(r"quota", re.IGNORECASE)`. -/
def patQuota (cs : List Char) : Bool :=
  searchSub "quota".data (lowerL cs)

/-- Matcher for `re.compile(r"resource.?exhausted", re.IGNORECASE)`. -/
def patResourceExhausted (cs : List Char) : Bool :=
  searchOptGap "resource".data "exhausted".data (lowerL cs)

/-- Matcher for `re.compile(r"overloaded", re.IGNORECASE)`. -/
def patOverloaded (cs : List Char) : Bool :=
  searchSub "overloaded".data (lowerL cs)

/-- Matcher for `re.compile(r"too many requests", re.IGNORECASE)`. -/
def patTooManyRequests (cs : List Char) : Bool :=
  searchSub "too many requests".data (lowerL cs)

/-- Matcher for `re.compile(r"(?:^|[\s:])503(?:\s|$)")`. -/
def pat503 (cs : List Char) : Bool :=
  codeSearch "503".data cs

/-- Matcher for `re.compile(r"temporarily unavailable", re.IGNORECASE)`. -/
def patTemporarilyUnavailable (cs : List Char) : Bool :=
  searchSub "temporarily unavailable".data (lowerL cs)

/-- The `_FALLBACK_PATTERNS` list of the source, in source order. -/
def FALLBACK_PATTERNS : List (List Char → Bool) :=
  [patModelNotFound, patModelNotExist, patModelUnavailable, pat404,
   patNotSupported, patDeprecated]

/-- The `_RETRIABLE_PATTERNS` list of the source, in source order. -/
def RETRIABLE_PATTERNS : List (List Char → Bool) :=
  [pat429, patRateLimit, patQuota, patResourceExhausted, patOverloaded,
   patTooManyRequests, pat503, patTemporarilyUnavailable]

/-- The `for pat in ...: if pat.search(msg): return ...` loops of
`_should_fallback`: first pattern that matches wins. -/
def searchAnyPat : List (List Char → Bool) → List Char → Bool
  | [], _ => false
  | p :: rest, cs => if p cs then true else searchAnyPat rest cs

/-- The source constant `_MAX_RETRIES`. -/
def MAX_RETRIES : Nat := 2

/-- The source constant `_RETRY_DELAY_SECS`. -/
def RETRY_DELAY_SECS : Nat := 3

/-- Embedding of `_should_fallback`: `True` means the error text warrants
falling back to the next model, `False` means it is retriable on the same
model. -/
def should_fallback (msg : String) : Bool :=
  if searchAnyPat RETRIABLE_PATTERNS msg.data then false
  else if searchAnyPat FALLBACK_PATTERNS msg.data then true
  else true

/-! Decimal rendering of Python integers, used by the f-strings of the
source (`str(int)` is plain decimal with an optional leading minus sign). -/

/-- The character of a decimal digit value. -/
def digitChar (n : Nat) : Char :=
  if n = 0 then '0' else if n = 1 then '1' else if n = 2 then '2'
  else if n = 3 then '3' else if n = 4 then '4' else if n = 5 then '5'
  else if n = 6 then '6' else if n = 7 then '7' else if n = 8 then '8'
  else '9'

/-- Decimal digits of a natural number, most significant first; the fuel is
always sufficient at `n + 1`. -/
def natCharsAux : Nat → Nat → List Char
  | 0, _ => []
  | f + 1, n =>
    if n < 10 then [digitChar n]
    else natCharsAux f (n / 10) ++ [digitChar (n % 10)]

/-- Decimal digits of a natural number. -/
def natChars (n : Nat) : List Char :=
  natCharsAux (n + 1) n

/-- Characters of `str(i)` for a Python integer. -/
def intChars : Int → List Char
  | .ofNat n => natChars n
  | .negSucc m => '-' :: natChars (m + 1)

/-- Model of `str(i)` / `f"{i}"` for a Python integer. -/
def intRepr (i : Int) : String :=
  String.mk (intChars i)

/-! JSON values and a model of `json.loads`.  The numeric grammar mirrors the
scanner of the Python json module: integers are evaluated, while numbers with
a fraction or exponent (and the `NaN`/`Infinity` constants) are kept as
`jfloat` literals — their numeric value is never inspected by the source.
Escaped `\uXXXX` code points outside the valid `Char` range are mapped to the
null character (Python keeps lone surrogates; no claim input contains any). -/

/-- A parsed JSON value as produced by `json.loads`.  Objects keep their
fields in insertion order with unique keys, as Python dicts do. -/
inductive JValue where
  | jnull
  | jbool (b : Bool)
  | jnum (n : Int)
  | jfloat (lit : String)
  | jstr (s : String)
  | jarr (items : List JValue)
  | jobj (fields : List (String × JValue))

/-- Python dict insertion: replace the value in place when the key exists,
append otherwise. -/
def objInsert : List (String × JValue) → String → JValue → List (String × JValue)
  | [], k, v => [(k, v)]
  | (k', v') :: rest, k, v =>
    if k' == k then (k', v) :: rest else (k', v') :: objInsert rest k v

/-- First binding of a key in an object, `dict.get(key)` without default. -/
def objLookup : List (String × JValue) → String → Option JValue
  | [], _ => none
  | (k, v) :: rest, key => if k == key then some v else objLookup rest key

/-- Python `dict.get(key, default)`. -/
def objGet (kvs : List (String × JValue)) (key : String) (dflt : JValue) : JValue :=
  (objLookup kvs key).getD dflt

/-- JSON inter-token whitespace as accepted by the Python json scanner. -/
def skipWs : List Char → List Char
  | [] => []
  | c :: cs =>
    if c == ' ' || c == '\t' || c == '\n' || c == '\r' then skipWs cs else c :: cs

/-- Value of a hexadecimal digit. -/
def hexVal (c : Char) : Option Nat :=
  if '0' ≤ c && c ≤ '9' then some (c.toNat - 48)
  else if 'a' ≤ c && c ≤ 'f' then some (c.toNat - 87)
  else if 'A' ≤ c && c ≤ 'F' then some (c.toNat - 55)
  else none

/-- Body of a JSON string literal, after the opening quote; strict mode:
raw control characters are rejected, the standard escapes are decoded. -/
def parseStrAux : Nat → List Char → List Char → Option (String × List Char)
  | 0, _, _ => none
  | f + 1, acc, cs =>
    match cs with
    | [] => none
    | c :: rest =>
      if c == '"' then some (String.mk acc.reverse, rest)
      else if c == '\\' then
        match rest with
        | [] => none
        | e :: rest2 =>
          if e == '"' then parseStrAux f ('"' :: acc) rest2
          else if e == '\\' then parseStrAux f ('\\' :: acc) rest2
          else if e == '/' then parseStrAux f ('/' :: acc) rest2
          else if e == 'b' then parseStrAux f ('\x08' :: acc) rest2
          else if e == 'f' then parseStrAux f ('\x0c' :: acc) rest2
          else if e == 'n' then parseStrAux f ('\n' :: acc) rest2
          else if e == 'r' then parseStrAux f ('\r' :: acc) rest2
          else if e == 't' then parseStrAux f ('\t' :: acc) rest2
          else if e == 'u' then
            match rest2 with
            | h1 :: h2 :: h3 :: h4 :: rest3 =>
              match hexVal h1, hexVal h2, hexVal h3, hexVal h4 with
              | some a, some b, some c2, some d =>
                parseStrAux f (Char.ofNat (((a * 16 + b) * 16 + c2) * 16 + d) :: acc) rest3
              | _, _, _, _ => none
            | _ => none
          else none
      else if c.toNat < 32 then none
      else parseStrAux f (c :: acc) rest

/-- Integer value of a list of decimal digits. -/
def digitsToInt (ds : List Char) : Int :=
  ds.foldl (fun acc c => acc * 10 + Int.ofNat (c.toNat - 48)) 0

/-- The optional fraction group `(\.\d+)?` of the json number regex: consumed
characters and remainder, or `none` when the group does not participate. -/
def fracPart : List Char → Option (List Char × List Char)
  | '.' :: c :: rest =>
    if c.isDigit then
      let p := rest.span Char.isDigit
      some ('.' :: c :: p.1, p.2)
    else none
  | _ => none

/-- The optional exponent group `([eE][-+]?\d+)?` of the json number regex. -/
def expPart : List Char → Option (List Char × List Char)
  | [] => none
  | e :: rest =>
    if e == 'e' || e == 'E' then
      let sgnRest : List Char × List Char :=
        match rest with
        | s :: r => if s == '+' || s == '-' then ([s], r) else ([], s :: r)
        | [] => ([], [])
      match sgnRest.2 with
      | c :: r =>
        if c.isDigit then
          let p := r.span Char.isDigit
          some (e :: (sgnRest.1 ++ (c :: p.1)), p.2)
        else none
      | [] => none
    else none

/-- Finish a number whose optional sign and integer digits were consumed. -/
def finishNum (neg : Bool) (intDs : List Char) (rest : List Char) : JValue × List Char :=
  let sgn : List Char := if neg then ['-'] else []
  match fracPart rest with
  | some (fds, r1) =>
    match expPart r1 with
    | some (eds, r2) => (.jfloat (String.mk (sgn ++ intDs ++ fds ++ eds)), r2)
    | none => (.jfloat (String.mk (sgn ++ intDs ++ fds)), r1)
  | none =>
    match expPart rest with
    | some (eds, r2) => (.jfloat (String.mk (sgn ++ intDs ++ eds)), r2)
    | none =>
      (.jnum (if neg then -(digitsToInt intDs) else digitsToInt intDs), rest)

/-- A JSON number per the scanner regex
`(-?(?:0|[1-9]\d*))(\.\d+)?([eE][-+]?\d+)?`. -/
def parseNum (cs : List Char) : Option (JValue × List Char) :=
  let negRest : Bool × List Char :=
    match cs with
    | '-' :: rest => (true, rest)
    | _ => (false, cs)
  match negRest.2 with
  | [] => none
  | '0' :: rest => some (finishNum negRest.1 ['0'] rest)
  | c :: rest =>
    if c.isDigit then
      let p := rest.span Char.isDigit
      some (finishNum negRest.1 (c :: p.1) p.2)
    else none

mutual

/-- A JSON value with leading whitespace, mirroring the Python json scanner;
the fuel is always sufficient at one past the input length. -/
def parseVal : Nat → List Char → Option (JValue × List Char)
  | 0, _ => none
  | f + 1, cs =>
    match skipWs cs with
    | [] => none
    | c :: rest =>
      if c == '\x7b' then
        match skipWs rest with
        | '\x7d' :: r => some (.jobj [], r)
        | r => parseMembers f r []
      else if c == '[' then
        match skipWs rest with
        | ']' :: r => some (.jarr [], r)
        | r => parseItems f r []
      else if c == '"' then
        match parseStrAux (rest.length + 1) [] rest with
        | some (s, r) => some (.jstr s, r)
        | none => none
      else if c == 't' then
        match takeAfter "rue".data rest with
        | some r => some (.jbool true, r)
        | none => none
      else if c == 'f' then
        match takeAfter "alse".data rest with
        | some r => some (.jbool false, r)
        | none => none
      else if c == 'n' then
        match takeAfter "ull".data rest with
        | some r => some (.jnull, r)
        | none => none
      else if c == 'N' then
        match takeAfter "aN".data rest with
        | some r => some (.jfloat "NaN", r)
        | none => none
      else if c == 'I' then
        match takeAfter "nfinity".data rest with
        | some r => some (.jfloat "Infinity", r)
        | none => none
      else if c == '-' then
        match rest with
        | 'I' :: r2 =>
          match takeAfter "nfinity".data r2 with
          | some r => some (.jfloat "-Infinity", r)
          | none => none
        | _ => parseNum (c :: rest)
      else if c.isDigit then parseNum (c :: rest)
      else none

/-- The members of a JSON object after its opening brace (nonempty case). -/
def parseMembers : Nat → List Char → List (String × JValue) → Option (JValue × List Char)
  | 0, _, _ => none
  | f + 1, cs, acc =>
    match skipWs cs with
    | '"' :: r1 =>
      match parseStrAux (r1.length + 1) [] r1 with
      | some (key, r2) =>
        match skipWs r2 with
        | ':' :: r3 =>
          match parseVal f r3 with
          | some (v, r4) =>
            match skipWs r4 with
            | ',' :: r5 => parseMembers f r5 (objInsert acc key v)
            | '\x7d' :: r5 => some (.jobj (objInsert acc key v), r5)
            | _ => none
          | none => none
        | _ => none
      | none => none
    | _ => none

/-- The items of a JSON array after its opening bracket (nonempty case). -/
def parseItems : Nat → List Char → List JValue → Option (JValue × List Char)
  | 0, _, _ => none
  | f + 1, cs, acc =>
    match parseVal f cs with
    | some (v, r1) =>
      match skipWs r1 with
      | ',' :: r2 => parseItems f r2 (acc ++ [v])
      | ']' :: r2 => some (.jarr (acc ++ [v]), r2)
      | _ => none
    | none => none

end

/-- Model of `json.loads`: a single JSON document, with leading and trailing
whitespace tolerated and anything further rejected as extra data. -/
def json_loads (s : String) : Option JValue :=
  match parseVal (s.data.length + 1) s.data with
  | some (v, rest) => if (skipWs rest).isEmpty then some v else none
  | none => none

/-! Model of `str.splitlines()`. -/

/-- Line-break characters of `str.splitlines()`. -/
def isLineBreak (c : Char) : Bool :=
  c == '\n' || c == '\r' || c == '\x0b' || c == '\x0c' || c == '\x1c' ||
  c == '\x1d' || c == '\x1e' || c == '\u0085' || c == '\u2028' || c == '\u2029'

/-- Model of `str.splitlines()`: `\r\n` counts as one break, a trailing break
produces no empty final line. -/
def splitLinesAux : List Char → List Char → List (List Char)
  | acc, [] => if acc.isEmpty then [] else [acc.reverse]
  | acc, '\r' :: '\n' :: cs => acc.reverse :: splitLinesAux [] cs
  | acc, c :: cs =>
    if isLineBreak c then acc.reverse :: splitLinesAux [] cs
    else splitLinesAux (c :: acc) cs

/-- Lines of a string, as `str.splitlines()` lists them. -/
def splitLines (s : String) : List (List Char) :=
  splitLinesAux [] s.data

/-! Statistics extraction and result formatting. -/

/-- Python truthiness of a decoded JSON value.  For a float literal the value
is falsy exactly when its mantissa digits are all zero (`NaN` and `Infinity`
carry no digits and are truthy). -/
def floatLitIsZero (lit : String) : Bool :=
  lit.data.any Char.isDigit && lit.data.all (fun c => !c.isDigit || c == '0')

/-- Python truthiness of a decoded JSON value. -/
def jTruthy : JValue → Bool
  | .jnull => false
  | .jbool b => b
  | .jnum n => n != 0
  | .jfloat lit => !(floatLitIsZero lit)
  | .jstr s => s != ""
  | .jarr items => !items.isEmpty
  | .jobj fields => !fields.isEmpty

/-- The dictionary `_extract_stats` builds: backend name, token counts and an
optional session identifier (the key is present only when truthy). -/
structure StatsD where
  model : String
  input_tokens : JValue
  output_tokens : JValue
  session_id : Option JValue

/-- The key function of the `max` call of `_extract_stats`:
`models[m].get("tokens", {}).get("candidates", 0)`.  A non-object entry or a
non-object `tokens` raises AttributeError; a non-integer `candidates` value is
modelled as the comparison failure it would eventually cause. -/
def candKey (v : JValue) : Except Unit Int :=
  match v with
  | .jobj ekvs =>
    match objGet ekvs "tokens" (.jobj []) with
    | .jobj tkvs =>
      match objGet tkvs "candidates" (.jnum 0) with
      | .jnum n => .ok n
      | _ => .error ()
    | _ => .error ()
  | _ => .error ()

/-- Key values for every entry of the models mapping; `max` visits every
entry, so any raising entry makes the whole call raise. -/
def keyVals : List (String × JValue) → Except Unit (List (String × Int))
  | [] => .ok []
  | (k, v) :: rest =>
    match candKey v with
    | .error e => .error e
    | .ok n =>
      match keyVals rest with
      | .error e => .error e
      | .ok tl => .ok ((k, n) :: tl)

/-- Fold of Python `max` with a key function: a later element replaces the
current best only when its key is strictly greater, so ties keep the first. -/
def pyMaxGo (k : String) (v : Int) : List (String × Int) → String
  | [] => k
  | (k', v') :: rest => if v' > v then pyMaxGo k' v' rest else pyMaxGo k v rest

/-- Python `max(models, key=...)` over the precomputed key values. -/
def pyMaxKey : List (String × Int) → Option String
  | [] => none
  | (k, v) :: rest => some (pyMaxGo k v rest)

/-- Embedding of `_extract_stats` on a decoded JSON object.  `.error ()`
models an exception escaping the function (AttributeError on `.get` of a
non-dict, or the TypeError of `max` over a non-dict truthy value). -/
def extract_stats (data : List (String × JValue)) : Except Unit (Option StatsD) :=
  match objGet data "stats" (.jobj []) with
  | .jobj skvs =>
    let models := objGet skvs "models" (.jobj [])
    if jTruthy models then
      match models with
      | .jobj mkvs =>
        match keyVals mkvs with
        | .error e => .error e
        | .ok pairs =>
          match pyMaxKey pairs with
          | none => .error ()
          | some best =>
            match objGet mkvs best (.jobj []) with
            | .jobj ekvs =>
              match objGet ekvs "tokens" (.jobj []) with
              | .jobj tkvs =>
                let sid := objGet data "session_id" .jnull
                .ok (some
                  { model := best
                    input_tokens := objGet tkvs "input" (.jnum 0)
                    output_tokens := objGet tkvs "candidates" (.jnum 0)
                    session_id := if jTruthy sid then some sid else none })
              | _ => .error ()
            | _ => .error ()
      | _ => .error ()
    else .ok none
  | _ => .error ()

/-- Rendering of a scalar JSON value inside a Python f-string.  Containers
never reach the metadata formatter in the data flow of the source, so their
rendering is left blank. -/
def jvalText : JValue → String
  | .jnull => "None"
  | .jbool true => "True"
  | .jbool false => "False"
  | .jnum n => intRepr n
  | .jfloat lit => lit
  | .jstr s => s
  | .jarr _ => ""
  | .jobj _ => ""

/-- Python truthiness of an optional string (`if fallback_from:`). -/
def optStrTruthy : Option String → Bool
  | some s => s != ""
  | none => false

/-- Embedding of `_format_metadata`. -/
def format_metadata (stats : Option StatsD) (fallback_from : Option String)
    (skipped_files : Nat) : Option String :=
  match stats with
  | none => none
  | some st =>
    let model_line :=
      "Model: " ++ st.model ++
        (if optStrTruthy fallback_from then
          " (fallback from " ++ fallback_from.getD "" ++ ")"
        else "")
    let token_line :=
      "Tokens: " ++ jvalText st.input_tokens ++ " input / " ++
        jvalText st.output_tokens ++ " output"
    let sid_lines : List String :=
      match st.session_id with
      | some v => if jTruthy v then ["Session ID: " ++ jvalText v] else []
      | none => []
    let skip_lines : List String :=
      if skipped_files > 0 then
        ["Skipped: " ++ intRepr (Int.ofNat skipped_files) ++ " binary/junk files"]
      else []
    some (String.intercalate "\n" (["---", model_line, token_line] ++ sid_lines ++ skip_lines))

/-- Python `m or "default"` for the failure records and the warning line. -/
def modelName : Option String → String
  | some s => if s == "" then "default" else s
  | none => "default"

/-- Remainder after the first occurrence of `": "`. -/
def afterSep : List Char → Option (List Char)
  | [] => none
  | c :: cs =>
    match takeAfter ": ".data (c :: cs) with
    | some r => some r
    | none => afterSep cs

/-- The shortened failure reason of the warning block:
`error.split(": ", 2)[-1] if ": " in error else error`. -/
def shortReason (e : String) : String :=
  match afterSep e.data with
  | none => e
  | some r1 =>
    match afterSep r1 with
    | none => String.mk r1
    | some r2 => String.mk r2

/-- Embedding of `_format_fallback_warning`. -/
def format_fallback_warning (failures : List (String × String))
    (used_model : Option String) : String :=
  String.intercalate "\n"
    (("[WARNING: Fell back to " ++ modelName used_model ++ "]") ::
      failures.map (fun p => "  - " ++ p.1 ++ ": " ++ shortReason p.2))

/-! The single-attempt invoker and the retry/fallback orchestrator.  One
orchestration call observes the external world only through the results of
its successive process invocations, modelled by an oracle
`world : Nat → ProcResult` giving the k-th invocation result.  Every run also
yields a trace with one record per process invocation, carrying the backend
identifier and session argument of the command line built for it and the
index of the candidate it served. -/

/-- The observable result of running the external process once. -/
inductive ProcResult where
  | timeout
  | oserror (msg : String)
  | exited (code : Int) (stdout : String) (stderr : String)

/-- One process invocation as recorded in a trace. -/
structure CallRec where
  cand_idx : Nat
  model : Option String
  session_id : Option String
deriving DecidableEq, Repr

/-- The `(success, result_text, stats)` triple of `_call_gemini`. -/
abbrev Outcome := Bool × String × Option StatsD

/-- Backward line scan of `_call_gemini` after a failed direct parse: empty
lines are skipped; a line decoding to a non-object, failing to decode, or
raising AttributeError inside the attempt (including from `_extract_stats`)
is skipped; a decoded object answers with its `response` field, defaulting to
the whole trimmed output.  A non-string `response` value is modelled as the
error it raises once the orchestrator joins the result parts. -/
def scanLines (s : String) : List (List Char) → Except Unit Outcome
  | [] => .ok (true, s, none)
  | l :: rest =>
    let line := stripL l
    if line.isEmpty then scanLines s rest
    else
      match json_loads (String.mk line) with
      | some (.jobj kvs) =>
        match extract_stats kvs with
        | .error _ => scanLines s rest
        | .ok st =>
          match objLookup kvs "response" with
          | none => .ok (true, s, st)
          | some (.jstr r) => .ok (true, r, st)
          | some _ => .error ()
      | some _ => scanLines s rest
      | none => scanLines s rest

/-- Parsing of the trimmed stdout of a zero-exit process in `_call_gemini`:
direct `json.loads` first — only a decode failure falls through to the
backward line scan, while a decoded non-object raises AttributeError on
`.get` (uncaught here), as does `_extract_stats` on a malformed object. -/
def parseStdout (s : String) : Except Unit Outcome :=
  match json_loads s with
  | some (.jobj kvs) =>
    match extract_stats kvs with
    | .error e => .error e
    | .ok st =>
      match objLookup kvs "response" with
      | none => .ok (true, s, st)
      | some (.jstr r) => .ok (true, r, st)
      | some _ => .error ()
  | some _ => .error ()
  | none => scanLines s (splitLines s).reverse

/-- The failure text of a timed-out attempt,
`f"Error: gemini CLI timed out after {timeout}s"`. -/
def timeoutMsg (timeout : Int) : String :=
  "Error: gemini CLI timed out after " ++ intRepr timeout ++ "s"

/-- Embedding of `_call_gemini` given the observable process result: timeout
and launch failure become failure outcomes, a nonzero exit reports the
trimmed stderr (or `unknown error` when stderr is empty), and a zero exit
parses the trimmed stdout. -/
def call_gemini (timeout : Int) (pr : ProcResult) : Except Unit Outcome :=
  match pr with
  | .timeout =>
    .ok (false, timeoutMsg timeout, none)
  | .oserror msg =>
    .ok (false, "Error: failed to run gemini CLI: " ++ msg, none)
  | .exited code out err =>
    if code != 0 then
      let error_msg := if err == "" then "unknown error" else pyStrip err
      .ok (false,
        "Error: gemini CLI exited with code " ++ intRepr code ++ ": " ++ error_msg,
        none)
    else
      parseStdout (pyStrip out)

/-- The retry loop of `_call_with_retries`: `remaining` counts the loop
iterations still allowed, `k` is the global index of the next invocation and
`last_error` the text of the previous failed attempt. -/
def cwrAux (world : Nat → ProcResult) (timeout : Int) (m sid : Option String)
    (cidx : Nat) : Nat → Nat → String → Except Unit (Outcome × Nat × List CallRec)
  | 0, k, last_error => .ok ((false, last_error, none), k, [])
  | remaining + 1, k, _ =>
    match call_gemini timeout (world k) with
    | .error e => .error e
    | .ok (true, text, stats) => .ok ((true, text, stats), k + 1, [⟨cidx, m, sid⟩])
    | .ok (false, text, _) =>
      if should_fallback text then .ok ((false, text, none), k + 1, [⟨cidx, m, sid⟩])
      else
        match remaining with
        | 0 => .ok ((false, text, none), k + 1, [⟨cidx, m, sid⟩])
        | r + 1 =>
          match cwrAux world timeout m sid cidx (r + 1) (k + 1) text with
          | .ok (o, k', tr) => .ok (o, k', ⟨cidx, m, sid⟩ :: tr)
          | .error e => .error e

/-- Embedding of `_call_with_retries`: up to `_MAX_RETRIES + 1` attempts on
one candidate, retrying only on non-fallback (transient) failures. -/
def call_with_retries (world : Nat → ProcResult) (timeout : Int)
    (m sid : Option String) (cidx k : Nat) :
    Except Unit (Outcome × Nat × List CallRec) :=
  cwrAux world timeout m sid cidx (MAX_RETRIES + 1) k ""

/-- The candidate list of `run_gemini`: the `models` list when it is truthy
(non-`None` and nonempty), else the single `model` when truthy (non-`None`
and nonempty), else the single implicit `None` candidate. -/
def toTry : Option String → Option (List String) → List (Option String)
  | model, models =>
    match models with
    | some (m :: ms) => (m :: ms).map some
    | _ =>
      match model with
      | some s => if s == "" then [none] else [some s]
      | none => [none]

/-- The candidate loop of `run_gemini`: `cidx` is the index of the current
candidate, `k` the global index of the next invocation, `sid` the session
argument still in force and `failures` the `(name, error)` records so far. -/
def runLoop (world : Nat → ProcResult) (timeout : Int) (skipped_files : Nat) :
    List (Option String) → Nat → Nat → Option String → List (String × String) →
    Except Unit (String × List CallRec)
  | [], _, _, _, failures =>
    .ok ((failures.getLast?.map Prod.snd).getD "Error: no models to try", [])
  | m :: rest, cidx, k, sid, failures =>
    match call_with_retries world timeout m sid cidx k with
    | .error e => .error e
    | .ok ((succ, text, stats), k', tr) =>
      if succ then
        let warn : List String :=
          if failures.isEmpty then [] else [format_fallback_warning failures m]
        let meta : List String :=
          match format_metadata stats (failures.head?.map Prod.fst) skipped_files with
          | some md => [md]
          | none => []
        .ok (String.intercalate "\n\n" (warn ++ [text] ++ meta), tr)
      else
        match runLoop world timeout skipped_files rest (cidx + 1) k' none
            (failures ++ [(modelName m, text)]) with
        | .ok (s, tr') => .ok (s, tr ++ tr')
        | .error e => .error e

/-- Embedding of `run_gemini`.  `gemini_found` is the outcome of resolving
the executable (`shutil.which`); `prompt` and `context` are carried on the
command line and stdin of every invocation, which the oracle model absorbs,
so they do not influence the embedded control flow. -/
def run_gemini (gemini_found : Bool) (prompt context : String)
    (model : Option String) (models : Option (List String)) (timeout : Int)
    (skipped_files : Nat) (session_id : Option String)
    (world : Nat → ProcResult) : Except Unit (String × List CallRec) :=
  if !gemini_found then .ok ("Error: gemini CLI not found in PATH", [])
  else runLoop world timeout skipped_files (toTry model models) 0 0 session_id []

/-! The specification-level three-way failure classification. -/

/-- The specification classes a failure text as transient, permanent, or
unknown. -/
inductive FailureClass where
  | transient
  | permanent
  | unknown
deriving DecidableEq

/-- Specification-side test: some transient pattern matches. -/
def transientMatch (msg : String) : Bool :=
  RETRIABLE_PATTERNS.any (fun p => p msg.data)

/-- Specification-side test: some permanent pattern matches. -/
def permanentMatch (msg : String) : Bool :=
  FALLBACK_PATTERNS.any (fun p => p msg.data)

/-- Specification-side classification: transient patterns are checked first,
then permanent ones, and anything else is `unknown`. -/
def classifySpec (msg : String) : FailureClass :=
  if transientMatch msg then .transient
  else if permanentMatch msg then .permanent
  else .unknown

/-! Auxiliary notions and concrete input data used by the theorems below. -/

/-- The failure text produced by the j-th invocation of a world whose every
invocation fails. -/
def failTextAt (world : Nat → ProcResult) (timeout : Int) (j : Nat) : String :=
  match call_gemini timeout (world j) with
  | .ok (_, t, _) => t
  | .error _ => ""

/-- A world in which every process invocation fails (and hence reports no
statistics, as every failure outcome of the invoker carries none). -/
def worldAllFail (world : Nat → ProcResult) (timeout : Int) : Prop :=
  ∀ j, ∃ txt, call_gemini timeout (world j) = .ok (false, txt, none)

/-- A minimal successful stdout payload: `{"response": "ok", "stats": {}}`. -/
def okJsonOut : String :=
  "\x7b\"response\": \"ok\", \"stats\": \x7b\x7d\x7d"

/-- A world whose first invocation fails with a permanent-class error and
whose later invocations succeed. -/
def worldPermThenOk : Nat → ProcResult := fun k =>
  if k == 0 then .exited 1 "" "model not found" else .exited 0 okJsonOut ""

/-- A world whose first two invocations fail with a transient-class error and
whose later invocations succeed. -/
def worldTransTwice : Nat → ProcResult := fun k =>
  if k < 2 then .exited 1 "" "429 rate limit exceeded" else .exited 0 okJsonOut ""

/-- A world whose every invocation exits nonzero with the same stderr. -/
def worldAllBoom : Nat → ProcResult := fun _ => .exited 1 "" "boom"

/-- A world whose every invocation succeeds. -/
def worldOkOut : Nat → ProcResult := fun _ => .exited 0 okJsonOut ""

/-- A world whose every invocation exits zero with the bare JSON number `5`
on stdout. -/
def worldNumOut : Nat → ProcResult := fun _ => .exited 0 "5" ""

/-- A world whose first invocation fails with a transient-class error
(`quota`) and whose later invocations succeed. -/
def worldQuotaThenOk : Nat → ProcResult := fun k =>
  if k == 0 then .exited 1 "" "quota exceeded" else .exited 0 okJsonOut ""

/-- The claim payload `{"response": "hello", "stats": {}}` of the statistics
round-trip example. -/
def helloPayload : String :=
  "\x7b\"response\": \"hello\", \"stats\": \x7b\x7d\x7d"

/-- The two-entry models mapping of the statistics example: a routing model
with 10 output tokens and an answering model with 1333. -/
def twoModels : List (String × JValue) :=
  [("gemini-2.5-flash-lite",
    .jobj [("tokens", .jobj [("input", .jnum 100), ("candidates", .jnum 10)])]),
   ("gemini-3-flash-preview",
    .jobj [("tokens", .jobj [("input", .jnum 8000), ("candidates", .jnum 1333)])])]

/-- A decoded payload carrying the two-entry models mapping. -/
def twoModelData : List (String × JValue) :=
  [("response", .jstr "hello"), ("stats", .jobj [("models", .jobj twoModels)])]

/-- The per-entry key value used by the argmax statement of the statistics
claims: zero stands in for an entry whose key computation would raise. -/
def candVal (v : JValue) : Int :=
  match candKey v with
  | .ok n => n
  | .error _ => 0

/-- The tokens mapping of one models entry, as read by `_extract_stats`:
`models[name].get("tokens", {})`, empty when the shapes do not apply. -/
def entryTokens (v : JValue) : List (String × JValue) :=
  match v with
  | .jobj ekvs =>
    match objGet ekvs "tokens" (.jobj []) with
    | .jobj tkvs => tkvs
    | _ => []
  | _ => []

/-- The decimal digit characters. -/
def digitChars : List Char :=
  ['0', '1', '2', '3', '4', '5', '6', '7', '8', '9']

/-- The characters that can appear in `str(i)` for an integer `i`. -/
def digitish : List Char := '-' :: digitChars

/-! Correspondence lemmas for the matchers. -/

theorem takeAfter_some {w : List Char} :
    ∀ {h r : List Char}, takeAfter w h = some r ↔ h = w ++ r := by
  induction w with
  | nil => intro h r; simp [takeAfter]
  | cons c cs ih =>
    intro h r
    cases h with
    | nil => simp [takeAfter]
    | cons d ds =>
      by_cases hcd : c = d
      · subst hcd
        simp [takeAfter, ih]
      · have hcd' : ¬ d = c := fun hdc => hcd hdc.symm
        simp [takeAfter, hcd, hcd']

theorem matchAt_eq_isSome (w : List Char) :
    ∀ h : List Char, matchAt w h = (takeAfter w h).isSome := by
  induction w with
  | nil => intro h; simp [matchAt, takeAfter]
  | cons c cs ih =>
    intro h
    cases h with
    | nil => simp [matchAt, takeAfter]
    | cons d ds =>
      by_cases hcd : c = d
      · subst hcd
        simp [matchAt, takeAfter, ih]
      · simp [matchAt, takeAfter, hcd]

theorem matchAt_iff {w h : List Char} :
    matchAt w h = true ↔ ∃ r, h = w ++ r := by
  rw [matchAt_eq_isSome]
  cases ht : takeAfter w h with
  | none =>
    simp only [Option.isSome_none]
    constructor
    · intro hf; cases hf
    · rintro ⟨r, rfl⟩
      have := takeAfter_some.mpr (rfl : w ++ r = w ++ r)
      rw [ht] at this
      cases this
  | some r =>
    simp only [Option.isSome_some, true_iff]
    exact ⟨r, takeAfter_some.mp ht⟩

theorem searchSub_iff {w : List Char} :
    ∀ {h : List Char}, searchSub w h = true ↔ ∃ u v, h = u ++ w ++ v := by
  intro h
  induction h with
  | nil =>
    simp only [searchSub, matchAt_iff]
    constructor
    · rintro ⟨r, hr⟩
      exact ⟨[], r, by simpa using hr⟩
    · rintro ⟨u, v, huv⟩
      rcases List.append_eq_nil.mp ((List.append_assoc u w v ▸ huv).symm) with ⟨hu, hwv⟩
      rcases List.append_eq_nil.mp hwv with ⟨hw, hv⟩
      exact ⟨[], by simp [hw]⟩
  | cons c cs ih =>
    simp only [searchSub, Bool.or_eq_true, matchAt_iff]
    constructor
    · rintro (⟨r, hr⟩ | hsub)
      · exact ⟨[], r, by simpa using hr⟩
      · rcases ih.mp hsub with ⟨u, v, rfl⟩
        exact ⟨c :: u, v, by simp⟩
    · rintro ⟨u, v, huv⟩
      cases u with
      | nil =>
        exact Or.inl ⟨v, by simpa using huv⟩
      | cons a u' =>
        have : c :: cs = a :: (u' ++ w ++ v) := by simpa using huv
        rcases List.cons.injEq .. ▸ this with ⟨hca, hcs⟩
        exact Or.inr (ih.mpr ⟨u', v, hcs⟩)

theorem searchSub_of_matchAt {w h : List Char} (hm : matchAt w h = true) :
    searchSub w h = true := by
  cases h with
  | nil => simpa [searchSub] using hm
  | cons c cs => simp [searchSub, hm]

theorem searchSub_append_right {w r : List Char} (x : List Char)
    (h : searchSub w r = true) : searchSub w (x ++ r) = true := by
  induction x with
  | nil => simpa using h
  | cons a x' ih => simp [searchSub, ih]

theorem searchSub_false_of_absent {w h : List Char} {c : Char}
    (hw : c ∈ w) (hh : c ∉ h) : searchSub w h = false := by
  cases hs : searchSub w h with
  | false => rfl
  | true =>
    rcases searchSub_iff.mp hs with ⟨u, v, huv⟩
    exact absurd (huv ▸ (by simp [hw] : c ∈ u ++ w ++ v)) hh

theorem gapThen_searchSub {b : List Char} :
    ∀ {r : List Char}, gapThen b r = true → searchSub b r = true := by
  intro r
  induction r with
  | nil => intro hg; simpa [gapThen, searchSub] using hg
  | cons c cs ih =>
    intro hg
    simp only [gapThen, Bool.or_eq_true, Bool.and_eq_true] at hg
    rcases hg with hm | ⟨_, hrest⟩
    · exact searchSub_of_matchAt hm
    · simp [searchSub, ih hrest]

theorem optGapThen_searchSub {b : List Char} {r : List Char}
    (hg : optGapThen b r = true) : searchSub b r = true := by
  cases r with
  | nil => simpa [optGapThen, searchSub] using hg
  | cons c cs =>
    simp only [optGapThen, Bool.or_eq_true, Bool.and_eq_true] at hg
    rcases hg with hm | ⟨_, hrest⟩
    · exact searchSub_of_matchAt hm
    · simp [searchSub, searchSub_of_matchAt hrest]

theorem searchGap_imp_a {a b : List Char} :
    ∀ {h : List Char}, searchGap a b h = true → searchSub a h = true := by
  intro h
  induction h with
  | nil =>
    intro hg
    simp only [searchGap, gapHit] at hg
    cases ht : takeAfter a ([] : List Char) with
    | none => rw [ht] at hg; cases hg
    | some r =>
      have : ([] : List Char) = a ++ r := takeAfter_some.mp ht
      exact searchSub_of_matchAt (matchAt_iff.mpr ⟨r, this⟩)
  | cons c cs ih =>
    intro hg
    rcases Bool.or_eq_true .. |>.mp (by simpa [searchGap] using hg) with hhit | hrest
    · simp only [gapHit] at hhit
      cases ht : takeAfter a (c :: cs) with
      | none => rw [ht] at hhit; cases hhit
      | some r =>
        exact searchSub_of_matchAt (matchAt_iff.mpr ⟨r, takeAfter_some.mp ht⟩)
    · simp [searchSub, ih hrest]

theorem searchGap_imp_b {a b : List Char} :
    ∀ {h : List Char}, searchGap a b h = true → searchSub b h = true := by
  intro h
  induction h with
  | nil =>
    intro hg
    simp only [searchGap, gapHit] at hg
    cases ht : takeAfter a ([] : List Char) with
    | none => rw [ht] at hg; cases hg
    | some r =>
      rw [ht] at hg
      have hr : ([] : List Char) = a ++ r := takeAfter_some.mp ht
      have : searchSub b r = true := gapThen_searchSub hg
      calc searchSub b [] = searchSub b (a ++ r) := by rw [← hr]
        _ = true := searchSub_append_right a this
  | cons c cs ih =>
    intro hg
    rcases Bool.or_eq_true .. |>.mp (by simpa [searchGap] using hg) with hhit | hrest
    · simp only [gapHit] at hhit
      cases ht : takeAfter a (c :: cs) with
      | none => rw [ht] at hhit; cases hhit
      | some r =>
        rw [ht] at hhit
        have hr : c :: cs = a ++ r := takeAfter_some.mp ht
        have hb : searchSub b r = true := gapThen_searchSub hhit
        calc searchSub b (c :: cs) = searchSub b (a ++ r) := by rw [hr]
          _ = true := searchSub_append_right a hb
    · have := ih hrest
      simp [searchSub, this]

theorem searchOptGap_imp_a {a b : List Char} :
    ∀ {h : List Char}, searchOptGap a b h = true → searchSub a h = true := by
  intro h
  induction h with
  | nil =>
    intro hg
    simp only [searchOptGap, optHit] at hg
    cases ht : takeAfter a ([] : List Char) with
    | none => rw [ht] at hg; cases hg
    | some r =>
      exact searchSub_of_matchAt (matchAt_iff.mpr ⟨r, takeAfter_some.mp ht⟩)
  | cons c cs ih =>
    intro hg
    rcases Bool.or_eq_true .. |>.mp (by simpa [searchOptGap] using hg) with hhit | hrest
    · simp only [optHit] at hhit
      cases ht : takeAfter a (c :: cs) with
      | none => rw [ht] at hhit; cases hhit
      | some r =>
        exact searchSub_of_matchAt (matchAt_iff.mpr ⟨r, takeAfter_some.mp ht⟩)
    · simp [searchSub, ih hrest]

theorem searchOptGap_imp_b {a b : List Char} :
    ∀ {h : List Char}, searchOptGap a b h = true → searchSub b h = true := by
  intro h
  induction h with
  | nil =>
    intro hg
    simp only [searchOptGap, optHit] at hg
    cases ht : takeAfter a ([] : List Char) with
    | none => rw [ht] at hg; cases hg
    | some r =>
      rw [ht] at hg
      have hr : ([] : List Char) = a ++ r := takeAfter_some.mp ht
      have hb : searchSub b r = true := optGapThen_searchSub hg
      calc searchSub b [] = searchSub b (a ++ r) := by rw [← hr]
        _ = true := searchSub_append_right a hb
  | cons c cs ih =>
    intro hg
    rcases Bool.or_eq_true .. |>.mp (by simpa [searchOptGap] using hg) with hhit | hrest
    · simp only [optHit] at hhit
      cases ht : takeAfter a (c :: cs) with
      | none => rw [ht] at hhit; cases hhit
      | some r =>
        rw [ht] at hhit
        have hr : c :: cs = a ++ r := takeAfter_some.mp ht
        have hb : searchSub b r = true := optGapThen_searchSub hhit
        calc searchSub b (c :: cs) = searchSub b (a ++ r) := by rw [hr]
          _ = true := searchSub_append_right a hb
    · have := ih hrest
      simp [searchSub, this]

/-! Character-set facts about rendered integers. -/

theorem digitChar_mem (n : Nat) : digitChar n ∈ digitChars := by
  unfold digitChar
  split_ifs <;> decide

theorem natCharsAux_mem {f n : Nat} {c : Char}
    (hc : c ∈ natCharsAux f n) : c ∈ digitChars := by
  induction f generalizing n with
  | zero => cases hc
  | succ f ih =>
    unfold natCharsAux at hc
    by_cases hlt : n < 10
    · rw [if_pos hlt] at hc
      rcases List.mem_singleton.mp hc with rfl
      exact digitChar_mem n
    · rw [if_neg hlt] at hc
      rcases List.mem_append.mp hc with h1 | h2
      · exact ih h1
      · rcases List.mem_singleton.mp h2 with rfl
        exact digitChar_mem (n % 10)

theorem intChars_mem {i : Int} {c : Char} (hc : c ∈ intChars i) :
    c ∈ digitish := by
  cases i with
  | ofNat n => exact List.mem_cons_of_mem _ (natCharsAux_mem hc)
  | negSucc m =>
    rcases List.mem_cons.mp hc with rfl | h
    · exact List.mem_cons_self _ _
    · exact List.mem_cons_of_mem _ (natCharsAux_mem h)

theorem lowerL_fix {l : List Char} (h : ∀ c ∈ l, c.toLower = c) :
    lowerL l = l := by
  unfold lowerL
  induction l with
  | nil => rfl
  | cons a l' ih =>
    simp only [List.map_cons]
    rw [h a (List.mem_cons_self a l'), ih (fun c hc => h c (List.mem_cons_of_mem a hc))]

theorem digitish_not_ws : ∀ c ∈ digitish, isWs c = false := by decide

theorem digitish_not_colon : ∀ c ∈ digitish, (c == ':') = false := by decide

theorem digitish_toLower : ∀ c ∈ digitish, c.toLower = c := by decide

theorem digitChars_ne_s : ∀ c ∈ digitChars, ¬ c = 's' := by decide

theorem lowerL_intChars (i : Int) : lowerL (intChars i) = intChars i :=
  lowerL_fix (fun c hc => digitish_toLower c (intChars_mem hc))

/-! Non-matching of the bare-status-code patterns on digit tails. -/

theorem takeAfter_digits_s {num : List Char} (hnum : ∀ c ∈ num, c ∈ digitChars) :
    ∀ {D r : List Char}, (∀ c ∈ D, c ∈ digitish) →
      takeAfter num (D ++ ['s']) = some r →
      ∃ D2, (∀ c ∈ D2, c ∈ digitish) ∧ r = D2 ++ ['s'] := by
  induction num with
  | nil =>
    intro D r hD ht
    refine ⟨D, hD, ?_⟩
    simpa [takeAfter] using ht.symm
  | cons c cs ih =>
    intro D r hD ht
    cases D with
    | nil =>
      exfalso
      have hcd : c ∈ digitChars := hnum c (List.mem_cons_self c cs)
      have hcs : ¬ c = 's' := digitChars_ne_s c hcd
      simp [takeAfter, hcs] at ht
    | cons d D' =>
      by_cases hcd : c = d
      · subst hcd
        simp only [List.cons_append, takeAfter, beq_self_eq_true, if_true] at ht
        exact ih (fun x hx => hnum x (List.mem_cons_of_mem c hx))
          (fun x hx => hD x (List.mem_cons_of_mem _ hx)) ht
      · simp [takeAfter, hcd] at ht

theorem codeAt_digits_false {num : List Char} (hnum : ∀ c ∈ num, c ∈ digitChars)
    {D : List Char} (hD : ∀ c ∈ D, c ∈ digitish) :
    codeAt num (D ++ ['s']) = false := by
  unfold codeAt
  cases ht : takeAfter num (D ++ ['s']) with
  | none => rfl
  | some r =>
    rcases takeAfter_digits_s hnum hD ht with ⟨D2, hD2, rfl⟩
    cases D2 with
    | nil =>
      show isWs 's' = false
      decide
    | cons d D2' =>
      show isWs d = false
      exact digitish_not_ws d (hD2 d (List.mem_cons_self d D2'))

theorem codeTail_digits_false {num : List Char} (hnum : ∀ c ∈ num, c ∈ digitChars) :
    ∀ {D : List Char}, (∀ c ∈ D, c ∈ digitish) →
      codeTail num (D ++ ['s']) = false := by
  intro D
  induction D with
  | nil =>
    intro _
    show codeTail num ['s'] = false
    simp [codeTail, isWs]
  | cons d D' ih =>
    intro hD
    have hd : d ∈ digitish := hD d (List.mem_cons_self d D')
    have hdws : isWs d = false := digitish_not_ws d hd
    have hdcol : (d == ':') = false := digitish_not_colon d hd
    simp only [List.cons_append, codeTail, List.append_eq, hdws, hdcol, Bool.or_self,
      Bool.false_and, Bool.false_or]
    exact ih (fun x hx => hD x (List.mem_cons_of_mem d hx))

theorem codeAt_nodigit_false {num : List Char} {n0 : Char} {ns : List Char}
    (hnum : num = n0 :: ns) (hn0 : n0 ∈ digitChars) :
    ∀ {L R : List Char}, (∀ c ∈ L, c ∉ digitChars) → codeAt num R = false →
      codeAt num (L ++ R) = false := by
  intro L R hL hR
  cases L with
  | nil => simpa using hR
  | cons a L' =>
    have ha : a ∉ digitChars := hL a (List.mem_cons_self a L')
    have hne : ¬ n0 = a := fun he => ha (he ▸ hn0)
    subst hnum
    simp [codeAt, takeAfter, hne]

theorem codeTail_nodigit_false {num : List Char} {n0 : Char} {ns : List Char}
    (hnum : num = n0 :: ns) (hn0 : n0 ∈ digitChars) :
    ∀ {L R : List Char}, (∀ c ∈ L, c ∉ digitChars) → codeAt num R = false →
      codeTail num R = false → codeTail num (L ++ R) = false := by
  intro L
  induction L with
  | nil => intro R _ _ hT; simpa using hT
  | cons a L' ih =>
    intro R hL hA hT
    have hA' : codeAt num (L' ++ R) = false :=
      codeAt_nodigit_false hnum hn0 (fun x hx => hL x (List.mem_cons_of_mem a hx)) hA
    simp only [List.cons_append, codeTail, List.append_eq, hA', Bool.and_false,
      Bool.false_or]
    exact ih (fun x hx => hL x (List.mem_cons_of_mem a hx)) hA hT

theorem codeSearch_msg_false {num : List Char} {n0 : Char} {ns : List Char}
    (hnum : num = n0 :: ns) (hn0 : n0 ∈ digitChars)
    (hall : ∀ c ∈ num, c ∈ digitChars)
    {L D : List Char} (hL : ∀ c ∈ L, c ∉ digitChars)
    (hD : ∀ c ∈ D, c ∈ digitish) :
    codeSearch num (L ++ (D ++ ['s'])) = false := by
  unfold codeSearch
  rw [codeAt_nodigit_false hnum hn0 hL (codeAt_digits_false hall hD),
    codeTail_nodigit_false hnum hn0 hL (codeAt_digits_false hall hD)
      (codeTail_digits_false hall hD)]
  rfl

/-! Confinement of letter-only needles to the fixed part of a message. -/

theorem matchAt_confine {w : List Char} :
    ∀ {S Z : List Char}, (∀ c ∈ w, ∀ d ∈ Z, c ≠ d) → Z ≠ [] →
      matchAt w (S ++ Z) = true → matchAt w S = true := by
  induction w with
  | nil => intro S Z _ _ _; rfl
  | cons c cs ih =>
    intro S Z hdisj hz hm
    cases S with
    | nil =>
      exfalso
      cases Z with
      | nil => exact hz rfl
      | cons z Z' =>
        simp only [List.nil_append, matchAt, Bool.and_eq_true, beq_iff_eq] at hm
        exact hdisj c (List.mem_cons_self c cs) z (List.mem_cons_self z Z') hm.1
    | cons s S' =>
      simp only [List.cons_append, matchAt, Bool.and_eq_true] at hm ⊢
      exact ⟨hm.1,
        ih (fun x hx d hd => hdisj x (List.mem_cons_of_mem c hx) d hd) hz hm.2⟩

theorem searchSub_confine {w : List Char} :
    ∀ {L Z : List Char}, (∀ c ∈ w, ∀ d ∈ Z, c ≠ d) → Z ≠ [] →
      searchSub w (L ++ Z) = true → searchSub w L = true := by
  intro L
  induction L with
  | nil =>
    intro Z hdisj hz h
    cases w with
    | nil => rfl
    | cons c cs =>
      exfalso
      rcases searchSub_iff.mp (by simpa using h) with ⟨u, v, huv⟩
      exact hdisj c (List.mem_cons_self c cs) c
        (huv ▸ (by simp : c ∈ u ++ (c :: cs) ++ v)) rfl
  | cons a L' ih =>
    intro Z hdisj hz h
    simp only [List.cons_append, searchSub, Bool.or_eq_true] at h ⊢
    rcases h with hm | hrest
    · exact Or.inl (matchAt_confine hdisj hz (by simpa using hm))
    · exact Or.inr (ih hdisj hz hrest)

/-! Non-matching of every classifier pattern on the timeout failure text. -/

theorem eq_false_of_imp {x y : Bool} (h : x = true → y = true) (hy : y = false) :
    x = false := by
  cases hx : x
  · rfl
  · exact absurd (h hx) (by simp [hy])

theorem timeout_data (t : Int) :
    (timeoutMsg t).data =
      ("Error: gemini CLI timed out after ").data ++ (intChars t ++ ['s']) := by
  show (("Error: gemini CLI timed out after " ++ intRepr t ++ "s")).data = _
  rw [String.data_append, String.data_append]
  rw [List.append_assoc]
  rfl

theorem timeout_lcs (t : Int) :
    lowerL (timeoutMsg t).data =
      ("error: gemini cli timed out after ").data ++ (intChars t ++ ['s']) := by
  rw [timeout_data]
  unfold lowerL
  rw [List.map_append, List.map_append]
  have h1 : ("Error: gemini CLI timed out after ").data.map Char.toLower =
      ("error: gemini cli timed out after ").data := by decide
  have h2 : (intChars t).map Char.toLower = intChars t := lowerL_intChars t
  have h3 : (['s'] : List Char).map Char.toLower = ['s'] := by decide
  rw [h1, h2, h3]

theorem searchSub_msgZ_false {w L : List Char} (t : Int)
    (hwL : searchSub w L = false)
    (hw : ∀ c ∈ w, c ∉ digitish ∧ ¬ c = 's') :
    searchSub w (L ++ (intChars t ++ ['s'])) = false := by
  cases hs : searchSub w (L ++ (intChars t ++ ['s'])) with
  | false => rfl
  | true =>
    have hdisj : ∀ c ∈ w, ∀ d ∈ intChars t ++ ['s'], c ≠ d := by
      intro c hc d hd
      rcases List.mem_append.mp hd with hdi | hds
      · exact fun he => (hw c hc).1 (he ▸ intChars_mem hdi)
      · rcases List.mem_singleton.mp hds with rfl
        exact (hw c hc).2
    have hz : intChars t ++ ['s'] ≠ [] := by simp
    have := searchSub_confine hdisj hz hs
    rw [hwL] at this
    cases this

theorem searchSub_msg_absent {w L : List Char} (t : Int) {c : Char}
    (hcw : c ∈ w) (hcL : c ∉ L) (hcd : c ∉ digitish) (hcs : ¬ c = 's') :
    searchSub w (L ++ (intChars t ++ ['s'])) = false := by
  refine searchSub_false_of_absent hcw ?_
  intro hmem
  rcases List.mem_append.mp hmem with h1 | h2
  · exact hcL h1
  · rcases List.mem_append.mp h2 with h3 | h4
    · exact hcd (intChars_mem h3)
    · exact hcs (List.mem_singleton.mp h4)

theorem pat429_timeout (t : Int) : pat429 (timeoutMsg t).data = false := by
  unfold pat429
  rw [timeout_data]
  exact codeSearch_msg_false (show ("429").data = '4' :: ['2', '9'] from rfl)
    (by decide) (by decide) (by decide) (fun c hc => intChars_mem hc)

theorem pat503_timeout (t : Int) : pat503 (timeoutMsg t).data = false := by
  unfold pat503
  rw [timeout_data]
  exact codeSearch_msg_false (show ("503").data = '5' :: ['0', '3'] from rfl)
    (by decide) (by decide) (by decide) (fun c hc => intChars_mem hc)

theorem pat404_timeout (t : Int) : pat404 (timeoutMsg t).data = false := by
  unfold pat404
  rw [timeout_data]
  exact codeSearch_msg_false (show ("404").data = '4' :: ['0', '4'] from rfl)
    (by decide) (by decide) (by decide) (fun c hc => intChars_mem hc)

theorem patRateLimit_timeout (t : Int) : patRateLimit (timeoutMsg t).data = false := by
  unfold patRateLimit
  rw [timeout_lcs]
  exact eq_false_of_imp (fun h => searchOptGap_imp_a h)
    (searchSub_msgZ_false t (by decide) (by decide))

theorem patQuota_timeout (t : Int) : patQuota (timeoutMsg t).data = false := by
  unfold patQuota
  rw [timeout_lcs]
  exact searchSub_msgZ_false t (by decide) (by decide)

theorem patResourceExhausted_timeout (t : Int) :
    patResourceExhausted (timeoutMsg t).data = false := by
  unfold patResourceExhausted
  rw [timeout_lcs]
  exact eq_false_of_imp (fun h => searchOptGap_imp_b h)
    (searchSub_msg_absent t (show 'x' ∈ "exhausted".data by decide) (by decide)
      (by decide) (by decide))

theorem patOverloaded_timeout (t : Int) : patOverloaded (timeoutMsg t).data = false := by
  unfold patOverloaded
  rw [timeout_lcs]
  exact searchSub_msgZ_false t (by decide) (by decide)

theorem patTooManyRequests_timeout (t : Int) :
    patTooManyRequests (timeoutMsg t).data = false := by
  unfold patTooManyRequests
  rw [timeout_lcs]
  exact searchSub_msg_absent t (show 'q' ∈ "too many requests".data by decide)
    (by decide) (by decide) (by decide)

theorem patTemporarilyUnavailable_timeout (t : Int) :
    patTemporarilyUnavailable (timeoutMsg t).data = false := by
  unfold patTemporarilyUnavailable
  rw [timeout_lcs]
  exact searchSub_msgZ_false t (by decide) (by decide)

theorem modelKill_timeout (t : Int) :
    searchSub "model".data (lowerL (timeoutMsg t).data) = false := by
  rw [timeout_lcs]
  exact searchSub_msgZ_false t (by decide) (by decide)

theorem patModelNotFound_timeout (t : Int) :
    patModelNotFound (timeoutMsg t).data = false := by
  unfold patModelNotFound
  exact eq_false_of_imp (fun h => searchGap_imp_a h) (modelKill_timeout t)

theorem patModelNotExist_timeout (t : Int) :
    patModelNotExist (timeoutMsg t).data = false := by
  unfold patModelNotExist
  exact eq_false_of_imp (fun h => searchGap_imp_a h) (modelKill_timeout t)

theorem patModelUnavailable_timeout (t : Int) :
    patModelUnavailable (timeoutMsg t).data = false := by
  unfold patModelUnavailable
  exact eq_false_of_imp (fun h => searchGap_imp_a h) (modelKill_timeout t)

theorem patNotSupported_timeout (t : Int) :
    patNotSupported (timeoutMsg t).data = false := by
  unfold patNotSupported
  rw [timeout_lcs]
  exact searchSub_msg_absent t (show 'p' ∈ "not supported".data by decide)
    (by decide) (by decide) (by decide)

theorem patDeprecated_timeout (t : Int) :
    patDeprecated (timeoutMsg t).data = false := by
  unfold patDeprecated
  rw [timeout_lcs]
  exact searchSub_msgZ_false t (by decide) (by decide)

theorem transientMatch_timeout (t : Int) :
    transientMatch (timeoutMsg t) = false := by
  unfold transientMatch RETRIABLE_PATTERNS
  simp [pat429_timeout, patRateLimit_timeout, patQuota_timeout,
    patResourceExhausted_timeout, patOverloaded_timeout,
    patTooManyRequests_timeout, pat503_timeout, patTemporarilyUnavailable_timeout]

theorem permanentMatch_timeout (t : Int) :
    permanentMatch (timeoutMsg t) = false := by
  unfold permanentMatch FALLBACK_PATTERNS
  simp [patModelNotFound_timeout, patModelNotExist_timeout,
    patModelUnavailable_timeout, pat404_timeout, patNotSupported_timeout,
    patDeprecated_timeout]

/-! Structural lemmas on the retry loop and the candidate loop. -/

theorem searchAnyPat_eq_any (cs : List Char) :
    ∀ ps : List (List Char → Bool), searchAnyPat ps cs = ps.any (fun p => p cs) := by
  intro ps
  induction ps with
  | nil => rfl
  | cons p rest ih =>
    by_cases hp : p cs
    · simp [searchAnyPat, hp]
    · simp [searchAnyPat, hp, ih]

theorem should_fallback_eq (msg : String) :
    should_fallback msg =
      (if transientMatch msg then false
       else if permanentMatch msg then true else true) := by
  unfold should_fallback transientMatch permanentMatch
  rw [searchAnyPat_eq_any, searchAnyPat_eq_any]

theorem cwrAux_succ (world : Nat → ProcResult) (timeout : Int)
    (m sid : Option String) (cidx n k : Nat) (e : String) :
    cwrAux world timeout m sid cidx (n + 1) k e =
      (match call_gemini timeout (world k) with
      | .error err => .error err
      | .ok (true, text, stats) =>
        .ok ((true, text, stats), k + 1, [(⟨cidx, m, sid⟩ : CallRec)])
      | .ok (false, text, _) =>
        if should_fallback text then
          .ok ((false, text, none), k + 1, [(⟨cidx, m, sid⟩ : CallRec)])
        else
          match n with
          | 0 => .ok ((false, text, none), k + 1, [(⟨cidx, m, sid⟩ : CallRec)])
          | r + 1 =>
            match cwrAux world timeout m sid cidx (r + 1) (k + 1) text with
            | .ok (o, k', tr) => .ok (o, k', (⟨cidx, m, sid⟩ : CallRec) :: tr)
            | .error err => .error err) := by
  rw [cwrAux.eq_def]

theorem runLoop_cons (world : Nat → ProcResult) (timeout : Int) (sk : Nat)
    (m : Option String) (rest : List (Option String)) (cidx k : Nat)
    (sid : Option String) (fl : List (String × String)) :
    runLoop world timeout sk (m :: rest) cidx k sid fl =
      (match call_with_retries world timeout m sid cidx k with
      | .error e => .error e
      | .ok ((succ, text, stats), k', tr) =>
        if succ then
          .ok (String.intercalate "\n\n"
            ((if fl.isEmpty then [] else [format_fallback_warning fl m]) ++
              [text] ++
              (match format_metadata stats (fl.head?.map Prod.fst) sk with
              | some md => [md]
              | none => [])), tr)
        else
          match runLoop world timeout sk rest (cidx + 1) k' none
              (fl ++ [(modelName m, text)]) with
          | .ok (s, tr') => .ok (s, tr ++ tr')
          | .error e => .error e) := by
  rw [runLoop.eq_def]

theorem cwrAux_ok {world : Nat → ProcResult} {timeout : Int} {m sid : Option String}
    {cidx : Nat} :
    ∀ {r k : Nat} {e : String} {o : Outcome} {k' : Nat} {tr : List CallRec},
      cwrAux world timeout m sid cidx r k e = .ok (o, k', tr) →
      (∀ rec ∈ tr, rec = (⟨cidx, m, sid⟩ : CallRec)) ∧ tr.length ≤ r ∧
        k' = k + tr.length := by
  intro r
  induction r with
  | zero =>
    intro k e o k' tr h
    simp only [cwrAux, Except.ok.injEq, Prod.mk.injEq] at h
    rcases h with ⟨_, hk, htr⟩
    subst htr
    subst hk
    simp
  | succ n ih =>
    intro k e o k' tr h
    cases hcg : call_gemini timeout (world k) with
    | error err =>
      have hstep : cwrAux world timeout m sid cidx (n + 1) k e = .error err := by
        rw [cwrAux_succ, hcg]
      rw [hstep] at h
      exact Except.noConfusion h
    | ok out =>
      obtain ⟨b, text, st⟩ := out
      cases b with
      | true =>
        have hstep : cwrAux world timeout m sid cidx (n + 1) k e =
            .ok ((true, text, st), k + 1, [(⟨cidx, m, sid⟩ : CallRec)]) := by
          rw [cwrAux_succ, hcg]
        rw [hstep] at h
        simp only [Except.ok.injEq, Prod.mk.injEq] at h
        rcases h with ⟨_, hk, htr⟩
        subst htr
        subst hk
        refine ⟨?_, by simp, by simp⟩
        intro rec hrec
        rcases List.mem_singleton.mp hrec with rfl
        rfl
      | false =>
        by_cases hsf : should_fallback text
        · have hstep : cwrAux world timeout m sid cidx (n + 1) k e =
              .ok ((false, text, none), k + 1, [(⟨cidx, m, sid⟩ : CallRec)]) := by
            rw [cwrAux_succ, hcg]
            simp [hsf]
          rw [hstep] at h
          simp only [Except.ok.injEq, Prod.mk.injEq] at h
          rcases h with ⟨_, hk, htr⟩
          subst htr
          subst hk
          refine ⟨?_, by simp, by simp⟩
          intro rec hrec
          rcases List.mem_singleton.mp hrec with rfl
          rfl
        · cases n with
          | zero =>
            have hstep : cwrAux world timeout m sid cidx (0 + 1) k e =
                .ok ((false, text, none), k + 1, [(⟨cidx, m, sid⟩ : CallRec)]) := by
              rw [cwrAux_succ, hcg]
              simp [hsf]
            rw [hstep] at h
            simp only [Except.ok.injEq, Prod.mk.injEq] at h
            rcases h with ⟨_, hk, htr⟩
            subst htr
            subst hk
            refine ⟨?_, by simp, by simp⟩
            intro rec hrec
            rcases List.mem_singleton.mp hrec with rfl
            rfl
          | succ n' =>
            cases hrec : cwrAux world timeout m sid cidx (n' + 1) (k + 1) text with
            | error err =>
              have hstep : cwrAux world timeout m sid cidx (n' + 1 + 1) k e =
                  .error err := by
                rw [cwrAux_succ, hcg]
                simp [hsf, hrec]
              rw [hstep] at h
              exact Except.noConfusion h
            | ok res =>
              obtain ⟨o2, k2, tr2⟩ := res
              have hstep : cwrAux world timeout m sid cidx (n' + 1 + 1) k e =
                  .ok (o2, k2, (⟨cidx, m, sid⟩ : CallRec) :: tr2) := by
                rw [cwrAux_succ, hcg]
                simp [hsf, hrec]
              rw [hstep] at h
              simp only [Except.ok.injEq, Prod.mk.injEq] at h
              rcases h with ⟨ho, hk, htr⟩
              subst htr
              subst hk
              subst ho
              rcases ih hrec with ⟨hall, hlen, hk2⟩
              refine ⟨?_, ?_, ?_⟩
              · intro rec hmem
                rcases List.mem_cons.mp hmem with rfl | hm
                · rfl
                · exact hall rec hm
              · simpa using Nat.succ_le_succ hlen
              · rw [hk2]
                simp only [List.length_cons]
                omega

theorem runLoop_cidx_ge {world : Nat → ProcResult} {timeout : Int} {sk : Nat} :
    ∀ {to_try : List (Option String)} {cidx k : Nat} {sid : Option String}
      {fl : List (String × String)} {s : String} {tr : List CallRec},
      runLoop world timeout sk to_try cidx k sid fl = .ok (s, tr) →
      ∀ rec ∈ tr, cidx ≤ rec.cand_idx := by
  intro to_try
  induction to_try with
  | nil =>
    intro cidx k sid fl s tr h
    simp only [runLoop, Except.ok.injEq, Prod.mk.injEq] at h
    rcases h with ⟨_, htr⟩
    subst htr
    intro rec hrec
    cases hrec
  | cons m rest ih =>
    intro cidx k sid fl s tr h
    cases hcwr : call_with_retries world timeout m sid cidx k with
    | error err =>
      have hstep : runLoop world timeout sk (m :: rest) cidx k sid fl = .error err := by
        rw [runLoop_cons, hcwr]
      rw [hstep] at h
      exact Except.noConfusion h
    | ok res =>
      obtain ⟨⟨succ, text, stats⟩, k2, tr2⟩ := res
      cases succ with
      | true =>
        have hstep : ∃ str, runLoop world timeout sk (m :: rest) cidx k sid fl =
            .ok (str, tr2) := ⟨_, by rw [runLoop_cons, hcwr]; try rfl⟩
        rcases hstep with ⟨str, hstep⟩
        rw [hstep] at h
        simp only [Except.ok.injEq, Prod.mk.injEq] at h
        rcases h with ⟨_, htr⟩
        subst htr
        intro rec hrec
        rcases cwrAux_ok hcwr with ⟨hall, _, _⟩
        rw [hall rec hrec]
      | false =>
        cases hrl : runLoop world timeout sk rest (cidx + 1) k2 none
            (fl ++ [(modelName m, text)]) with
        | error err =>
          have hstep : runLoop world timeout sk (m :: rest) cidx k sid fl =
              .error err := by
            rw [runLoop_cons, hcwr]
            simp only [hrl]
            try rfl
          rw [hstep] at h
          exact Except.noConfusion h
        | ok res2 =>
          obtain ⟨s2, tr3⟩ := res2
          have hstep : runLoop world timeout sk (m :: rest) cidx k sid fl =
              .ok (s2, tr2 ++ tr3) := by
            rw [runLoop_cons, hcwr]
            simp only [hrl]
            try rfl
          rw [hstep] at h
          simp only [Except.ok.injEq, Prod.mk.injEq] at h
          rcases h with ⟨_, htr⟩
          subst htr
          intro rec hrec
          rcases List.mem_append.mp hrec with hm | hm
          · rcases cwrAux_ok hcwr with ⟨hall, _, _⟩
            rw [hall rec hm]
          · exact Nat.le_of_succ_le (ih hrl rec hm)

theorem runLoop_session {world : Nat → ProcResult} {timeout : Int} {sk : Nat} :
    ∀ {to_try : List (Option String)} {cidx k : Nat} {sid : Option String}
      {fl : List (String × String)} {s : String} {tr : List CallRec},
      runLoop world timeout sk to_try cidx k sid fl = .ok (s, tr) →
      ∀ rec ∈ tr, rec.session_id = (if rec.cand_idx = cidx then sid else none) := by
  intro to_try
  induction to_try with
  | nil =>
    intro cidx k sid fl s tr h
    simp only [runLoop, Except.ok.injEq, Prod.mk.injEq] at h
    rcases h with ⟨_, htr⟩
    subst htr
    intro rec hrec
    cases hrec
  | cons m rest ih =>
    intro cidx k sid fl s tr h
    cases hcwr : call_with_retries world timeout m sid cidx k with
    | error err =>
      have hstep : runLoop world timeout sk (m :: rest) cidx k sid fl = .error err := by
        rw [runLoop_cons, hcwr]
      rw [hstep] at h
      exact Except.noConfusion h
    | ok res =>
      obtain ⟨⟨succ, text, stats⟩, k2, tr2⟩ := res
      cases succ with
      | true =>
        have hstep : ∃ str, runLoop world timeout sk (m :: rest) cidx k sid fl =
            .ok (str, tr2) := ⟨_, by rw [runLoop_cons, hcwr]; try rfl⟩
        rcases hstep with ⟨str, hstep⟩
        rw [hstep] at h
        simp only [Except.ok.injEq, Prod.mk.injEq] at h
        rcases h with ⟨_, htr⟩
        subst htr
        intro rec hrec
        rcases cwrAux_ok hcwr with ⟨hall, _, _⟩
        rw [hall rec hrec]
        simp
      | false =>
        cases hrl : runLoop world timeout sk rest (cidx + 1) k2 none
            (fl ++ [(modelName m, text)]) with
        | error err =>
          have hstep : runLoop world timeout sk (m :: rest) cidx k sid fl =
              .error err := by
            rw [runLoop_cons, hcwr]
            simp only [hrl]
            try rfl
          rw [hstep] at h
          exact Except.noConfusion h
        | ok res2 =>
          obtain ⟨s2, tr3⟩ := res2
          have hstep : runLoop world timeout sk (m :: rest) cidx k sid fl =
              .ok (s2, tr2 ++ tr3) := by
            rw [runLoop_cons, hcwr]
            simp only [hrl]
            try rfl
          rw [hstep] at h
          simp only [Except.ok.injEq, Prod.mk.injEq] at h
          rcases h with ⟨_, htr⟩
          subst htr
          intro rec hrec
          rcases List.mem_append.mp hrec with hm | hm
          · rcases cwrAux_ok hcwr with ⟨hall, _, _⟩
            rw [hall rec hm]
            simp
          · have hge : cidx + 1 ≤ rec.cand_idx := runLoop_cidx_ge hrl rec hm
            have hne : ¬ rec.cand_idx = cidx := by omega
            rw [ih hrl rec hm, if_neg hne]
            by_cases hc1 : rec.cand_idx = cidx + 1 <;> simp [hc1]

theorem runLoop_filter_le {world : Nat → ProcResult} {timeout : Int} {sk : Nat} :
    ∀ {to_try : List (Option String)} {cidx k : Nat} {sid : Option String}
      {fl : List (String × String)} {s : String} {tr : List CallRec},
      runLoop world timeout sk to_try cidx k sid fl = .ok (s, tr) →
      ∀ i, (tr.filter (fun r => r.cand_idx == i)).length ≤ MAX_RETRIES + 1 := by
  intro to_try
  induction to_try with
  | nil =>
    intro cidx k sid fl s tr h i
    simp only [runLoop, Except.ok.injEq, Prod.mk.injEq] at h
    rcases h with ⟨_, htr⟩
    subst htr
    simp
  | cons m rest ih =>
    intro cidx k sid fl s tr h i
    cases hcwr : call_with_retries world timeout m sid cidx k with
    | error err =>
      have hstep : runLoop world timeout sk (m :: rest) cidx k sid fl = .error err := by
        rw [runLoop_cons, hcwr]
      rw [hstep] at h
      exact Except.noConfusion h
    | ok res =>
      obtain ⟨⟨succ, text, stats⟩, k2, tr2⟩ := res
      rcases cwrAux_ok hcwr with ⟨hall, hlen, _⟩
      cases succ with
      | true =>
        have hstep : ∃ str, runLoop world timeout sk (m :: rest) cidx k sid fl =
            .ok (str, tr2) := ⟨_, by rw [runLoop_cons, hcwr]; try rfl⟩
        rcases hstep with ⟨str, hstep⟩
        rw [hstep] at h
        simp only [Except.ok.injEq, Prod.mk.injEq] at h
        rcases h with ⟨_, htr⟩
        subst htr
        calc (tr2.filter (fun r => r.cand_idx == i)).length ≤ tr2.length :=
            List.length_filter_le _ tr2
          _ ≤ MAX_RETRIES + 1 := hlen
      | false =>
        cases hrl : runLoop world timeout sk rest (cidx + 1) k2 none
            (fl ++ [(modelName m, text)]) with
        | error err =>
          have hstep : runLoop world timeout sk (m :: rest) cidx k sid fl =
              .error err := by
            rw [runLoop_cons, hcwr]
            simp only [hrl]
            try rfl
          rw [hstep] at h
          exact Except.noConfusion h
        | ok res2 =>
          obtain ⟨s2, tr3⟩ := res2
          have hstep : runLoop world timeout sk (m :: rest) cidx k sid fl =
              .ok (s2, tr2 ++ tr3) := by
            rw [runLoop_cons, hcwr]
            simp only [hrl]
            try rfl
          rw [hstep] at h
          simp only [Except.ok.injEq, Prod.mk.injEq] at h
          rcases h with ⟨_, htr⟩
          subst htr
          rw [List.filter_append, List.length_append]
          by_cases hic : i = cidx
          · subst hic
            have h3 : tr3.filter (fun r => r.cand_idx == i) = [] := by
              rw [List.filter_eq_nil_iff]
              intro rec hm
              have := runLoop_cidx_ge hrl rec hm
              simp only [beq_iff_eq]
              omega
            rw [h3]
            simp only [List.length_nil, Nat.add_zero]
            calc (tr2.filter (fun r => r.cand_idx == i)).length ≤ tr2.length :=
                List.length_filter_le _ tr2
              _ ≤ MAX_RETRIES + 1 := hlen
          · have h2 : tr2.filter (fun r => r.cand_idx == i) = [] := by
              rw [List.filter_eq_nil_iff]
              intro rec hm
              rw [hall rec hm]
              simp only [beq_iff_eq]
              exact fun he => hic he.symm
            rw [h2]
            simpa using ih hrl i

/-! Exhaustion of a world whose every invocation fails. -/

theorem cwrAux_allfail {world : Nat → ProcResult} {timeout : Int}
    {m sid : Option String} {cidx : Nat} (hW : worldAllFail world timeout) :
    ∀ (r k : Nat) (e : String), 1 ≤ r →
      ∃ n tr, cwrAux world timeout m sid cidx r k e =
          .ok ((false, failTextAt world timeout (k + n), none), k + n + 1, tr) ∧
        tr.length = n + 1 ∧ n + 1 ≤ r := by
  intro r
  induction r with
  | zero => intro k e h1; omega
  | succ nr ih =>
    intro k e _
    rcases hW k with ⟨txt, hcg⟩
    have htxt : failTextAt world timeout k = txt := by
      unfold failTextAt
      rw [hcg]
    by_cases hsf : should_fallback txt
    · refine ⟨0, [⟨cidx, m, sid⟩], ?_, rfl, by omega⟩
      rw [cwrAux_succ, hcg]
      simp [hsf, htxt]
    · cases nr with
      | zero =>
        refine ⟨0, [⟨cidx, m, sid⟩], ?_, rfl, by omega⟩
        rw [cwrAux_succ, hcg]
        simp [hsf, htxt]
      | succ nr' =>
        rcases ih (k + 1) txt (by omega) with ⟨n1, tr1, hres, hlen, hle⟩
        refine ⟨n1 + 1, ⟨cidx, m, sid⟩ :: tr1, ?_, by simp [hlen], by omega⟩
        rw [cwrAux_succ, hcg]
        have h1 : k + 1 + n1 = k + (n1 + 1) := by omega
        rw [h1] at hres
        have h2 : k + (n1 + 1) + 1 = k + (n1 + 1) + 1 := rfl
        simp [hsf, hres]

theorem runLoop_allfail {world : Nat → ProcResult} {timeout : Int}
    (hW : worldAllFail world timeout) {sk : Nat} :
    ∀ {to_try : List (Option String)}, to_try ≠ [] →
      ∀ (cidx k : Nat) (sid : Option String) (fl : List (String × String)),
        ∃ n tr, runLoop world timeout sk to_try cidx k sid fl =
            .ok (failTextAt world timeout (k + n), tr) ∧ tr.length = n + 1 := by
  intro to_try
  induction to_try with
  | nil => intro h; exact absurd rfl h
  | cons m rest ih =>
    intro _ cidx k sid fl
    rcases cwrAux_allfail hW (MAX_RETRIES + 1) k ""
        (by decide) with ⟨n0, tr0, hres, hlen0, _⟩
    have hres' : call_with_retries world timeout m sid cidx k =
        .ok ((false, failTextAt world timeout (k + n0), none), k + n0 + 1, tr0) := hres
    cases rest with
    | nil =>
      refine ⟨n0, tr0, ?_, hlen0⟩
      rw [runLoop_cons, hres']
      simp [runLoop, List.getLast?_concat]
    | cons m2 rest2 =>
      rcases ih (by simp) (cidx + 1) (k + n0 + 1) none
          (fl ++ [(modelName m, failTextAt world timeout (k + n0))]) with
        ⟨n1, tr1, hres1, hlen1⟩
      refine ⟨n0 + 1 + n1, tr0 ++ tr1, ?_, ?_⟩
      · rw [runLoop_cons, hres']
        have harith : k + n0 + 1 + n1 = k + (n0 + 1 + n1) := by omega
        rw [harith] at hres1
        simp [hres1]
      · rw [List.length_append, hlen0, hlen1]
        omega

/-! Lemmas on the argmax of the statistics extraction. -/

theorem pyMaxGo_mem_ge :
    ∀ (rest : List (String × Int)) (k : String) (v : Int),
      ∃ w : Int, (pyMaxGo k v rest, w) ∈ (k, v) :: rest ∧ v ≤ w ∧
        ∀ q ∈ (k, v) :: rest, q.2 ≤ w := by
  intro rest
  induction rest with
  | nil =>
    intro k v
    refine ⟨v, List.mem_singleton.mpr rfl, le_refl v, ?_⟩
    intro q hq
    rcases List.mem_singleton.mp hq with rfl
    exact le_refl v
  | cons p rest' ih =>
    intro k v
    obtain ⟨k', v'⟩ := p
    by_cases hgt : v' > v
    · rcases ih k' v' with ⟨w, hmem, hvw, hall⟩
      have hres : pyMaxGo k v ((k', v') :: rest') = pyMaxGo k' v' rest' := by
        simp [pyMaxGo, hgt]
      refine ⟨w, ?_, le_of_lt (lt_of_lt_of_le hgt hvw), ?_⟩
      · rw [hres]
        exact List.mem_cons_of_mem _ hmem
      · intro q hq
        rcases List.mem_cons.mp hq with rfl | hq2
        · exact le_of_lt (lt_of_lt_of_le hgt hvw)
        · exact hall q hq2
    · rcases ih k v with ⟨w, hmem, hvw, hall⟩
      have hres : pyMaxGo k v ((k', v') :: rest') = pyMaxGo k v rest' := by
        simp [pyMaxGo, hgt]
      refine ⟨w, ?_, hvw, ?_⟩
      · rw [hres]
        rcases List.mem_cons.mp hmem with he | hm
        · exact he ▸ List.mem_cons_self _ _
        · exact List.mem_cons_of_mem _ (List.mem_cons_of_mem _ hm)
      · intro q hq
        rcases List.mem_cons.mp hq with rfl | hq2
        · exact hall (k, v) (List.mem_cons_self _ _)
        · rcases List.mem_cons.mp hq2 with rfl | hq3
          · exact le_trans (le_of_not_lt hgt) hvw
          · exact hall q (List.mem_cons_of_mem _ hq3)

theorem keyVals_ok :
    ∀ {mkvs : List (String × JValue)} {pairs : List (String × Int)},
      keyVals mkvs = .ok pairs →
      pairs = mkvs.map (fun q => (q.1, candVal q.2)) ∧
        ∀ q ∈ mkvs, candKey q.2 = .ok (candVal q.2) := by
  intro mkvs
  induction mkvs with
  | nil =>
    intro pairs h
    simp only [keyVals, Except.ok.injEq] at h
    subst h
    exact ⟨rfl, by intro q hq; cases hq⟩
  | cons p rest ih =>
    intro pairs h
    obtain ⟨k0, v0⟩ := p
    cases hck : candKey v0 with
    | error err => simp [keyVals, hck] at h
    | ok n0 =>
      cases hkv : keyVals rest with
      | error err => simp [keyVals, hck, hkv] at h
      | ok tl =>
        simp only [keyVals, hck, hkv, Except.ok.injEq] at h
        subst h
        rcases ih hkv with ⟨htl, hallq⟩
        have hval : candVal v0 = n0 := by
          unfold candVal
          rw [hck]
        constructor
        · simp only [List.map_cons]
          rw [htl, hval]
        · intro q hq
          rcases List.mem_cons.mp hq with rfl | hq2
          · rw [hck, hval]
          · exact hallq q hq2

theorem objGet_of_mem_nodup :
    ∀ {kvs : List (String × JValue)} {p : String × JValue} {d : JValue},
      p ∈ kvs → (kvs.map Prod.fst).Nodup → objGet kvs p.1 d = p.2 := by
  intro kvs
  induction kvs with
  | nil => intro p d hp; cases hp
  | cons q rest ih =>
    intro p d hp hnd
    obtain ⟨k0, v0⟩ := q
    rcases List.mem_cons.mp hp with rfl | hmem
    · simp [objGet, objLookup]
    · have hk0 : k0 ∉ rest.map Prod.fst := by
        simpa using (List.nodup_cons.mp hnd).1
      have hne : ¬ (k0 == p.1) = true := by
        simp only [beq_iff_eq]
        intro he
        exact hk0 (he ▸ List.mem_map_of_mem Prod.fst hmem)
      simp only [objGet, objLookup, hne, if_false]
      exact ih hmem (List.nodup_cons.mp hnd).2

theorem candKey_shape {v : JValue} {n : Int} (h : candKey v = .ok n) :
    ∃ ekvs tkvs, v = .jobj ekvs ∧
      objGet ekvs "tokens" (.jobj []) = .jobj tkvs ∧
      objGet tkvs "candidates" (.jnum 0) = .jnum n ∧ entryTokens v = tkvs := by
  cases v with
  | jobj ekvs =>
    cases htk : objGet ekvs "tokens" (.jobj []) with
    | jobj tkvs =>
      cases hcd : objGet tkvs "candidates" (.jnum 0) with
      | jnum n' =>
        have hn : n' = n := by
          simp only [candKey, htk, hcd, Except.ok.injEq] at h
          exact h
        subst hn
        exact ⟨ekvs, tkvs, rfl, htk, hcd, by simp [entryTokens, htk]⟩
      | jnull => simp [candKey, htk, hcd] at h
      | jbool b => simp [candKey, htk, hcd] at h
      | jfloat l => simp [candKey, htk, hcd] at h
      | jstr s => simp [candKey, htk, hcd] at h
      | jarr l => simp [candKey, htk, hcd] at h
      | jobj l => simp [candKey, htk, hcd] at h
    | jnull => simp [candKey, htk] at h
    | jbool b => simp [candKey, htk] at h
    | jnum n2 => simp [candKey, htk] at h
    | jfloat l => simp [candKey, htk] at h
    | jstr s => simp [candKey, htk] at h
    | jarr l => simp [candKey, htk] at h
  | jnull => simp [candKey] at h
  | jbool b => simp [candKey] at h
  | jnum n2 => simp [candKey] at h
  | jfloat l => simp [candKey] at h
  | jstr s => simp [candKey] at h
  | jarr l => simp [candKey] at h

theorem extract_stats_none {data : List (String × JValue)}
    {skvs : List (String × JValue)}
    (hstats : objGet data "stats" (.jobj []) = .jobj skvs)
    (hempty : jTruthy (objGet skvs "models" (.jobj [])) = false) :
    extract_stats data = .ok none := by
  simp [extract_stats, hstats, hempty]

theorem extract_stats_argmax {data skvs mkvs : List (String × JValue)}
    {st : StatsD}
    (hstats : objGet data "stats" (.jobj []) = .jobj skvs)
    (hmodels : objGet skvs "models" (.jobj []) = .jobj mkvs)
    (hnodup : (mkvs.map Prod.fst).Nodup)
    (hok : extract_stats data = .ok (some st)) :
    ∃ p ∈ mkvs, st.model = p.1 ∧
      st.input_tokens = objGet (entryTokens p.2) "input" (.jnum 0) ∧
      st.output_tokens = objGet (entryTokens p.2) "candidates" (.jnum 0) ∧
      ∀ q ∈ mkvs, candVal q.2 ≤ candVal p.2 := by
  simp only [extract_stats, hstats, hmodels] at hok
  cases mkvs with
  | nil => simp [jTruthy] at hok
  | cons p0 rest =>
    have htr : jTruthy (JValue.jobj (p0 :: rest)) = true := by simp [jTruthy]
    rw [htr] at hok
    simp only [if_true] at hok
    cases hkv : keyVals (p0 :: rest) with
    | error err => rw [hkv] at hok; exact Except.noConfusion hok
    | ok pairs =>
      rw [hkv] at hok
      rcases keyVals_ok hkv with ⟨hpairs, hallck⟩
      obtain ⟨k0, v0⟩ := p0
      have hpairs' : pairs =
          (k0, candVal v0) :: rest.map (fun q => (q.1, candVal q.2)) := by
        simpa using hpairs
      rw [hpairs'] at hok
      simp only [pyMaxKey] at hok
      rcases pyMaxGo_mem_ge (rest.map (fun q => (q.1, candVal q.2))) k0
          (candVal v0) with ⟨w, hmem, _, hall⟩
      set best := pyMaxGo k0 (candVal v0) (rest.map (fun q => (q.1, candVal q.2)))
        with hbest
      have hmem' : (best, w) ∈
          ((k0, v0) :: rest).map (fun q => (q.1, candVal q.2)) := by
        simpa using hmem
      rcases List.mem_map.mp hmem' with ⟨p, hpmem, hpeq⟩
      have hbname : p.1 = best := congrArg Prod.fst hpeq
      have hbval : candVal p.2 = w := congrArg Prod.snd hpeq
      have hcand : candKey p.2 = .ok (candVal p.2) := hallck p hpmem
      rcases candKey_shape hcand with ⟨ekvs, tkvs, hpv, htk, hcd, hent⟩
      have hget : objGet ((k0, v0) :: rest) best (.jobj []) = p.2 :=
        hbname ▸ objGet_of_mem_nodup hpmem hnodup
      rw [hget] at hok
      rw [hpv] at hok
      simp only [htk] at hok
      simp only [Except.ok.injEq, Option.some.injEq] at hok
      refine ⟨p, hpmem, ?_, ?_, ?_, ?_⟩
      · rw [← hok]
        exact hbname.symm
      · rw [← hok, hent]
      · rw [← hok, hent]
      · intro q hq
        have : (q.1, candVal q.2) ∈
            ((k0, v0) :: rest).map (fun q => (q.1, candVal q.2)) :=
          List.mem_map_of_mem _ hq
        have hle : candVal q.2 ≤ w := by
          have := hall (q.1, candVal q.2) (by simpa using this)
          simpa using this
        rw [hbval]
        exact hle

theorem toTry_ne_nil (model : Option String) (models : Option (List String)) :
    toTry model models ≠ [] := by
  unfold toTry
  cases models with
  | some l =>
    cases l with
    | nil =>
      cases model with
      | some s => by_cases h : s == "" <;> simp [h]
      | none => simp
    | cons m ms => simp
  | none =>
    cases model with
    | some s => by_cases h : s == "" <;> simp [h]
    | none => simp

/-! The claims. -/

/-- Claim C1 counterexample: with both a pinned identifier (`model = pinned`)
and a priority list (`models = [other]`) supplied, the single invocation made
carries the priority-list entry `other`, not the pinned identifier — the
claim that the candidate list is exactly the pinned identifier is false. -/
theorem c1_counterexample :
    run_gemini true "p" "" (some "pinned") (some ["other"]) 120 0 none worldOkOut =
      .ok ("ok", [⟨0, some "other", none⟩]) ∧
    (some "other" : Option String) ≠ some "pinned" :=
  ⟨rfl, by decide⟩

/-- Claim C1 (amended): when both a pinned identifier and a nonempty priority
list are supplied, the candidate list tried is exactly the priority list —
the pinned identifier is ignored (the source checks `models` first). -/
theorem c1_amended (m : String) (ms : List String) (h : ms ≠ []) :
    toTry (some m) (some ms) = ms.map some ∧
    ∀ (prompt context : String) (timeout : Int) (sk : Nat)
      (sid : Option String) (world : Nat → ProcResult),
      run_gemini true prompt context (some m) (some ms) timeout sk sid world =
        runLoop world timeout sk (ms.map some) 0 0 sid [] := by
  have h1 : toTry (some m) (some ms) = ms.map some := by
    cases ms with
    | nil => exact absurd rfl h
    | cons x xs => rfl
  refine ⟨h1, ?_⟩
  intro prompt context timeout sk sid world
  show runLoop world timeout sk (toTry (some m) (some ms)) 0 0 sid [] = _
  rw [h1]

/-- Witness for the amended claim C1 at a concrete pinned identifier and
priority list. -/
theorem c1_amended_witness :
    toTry (some "pinned") (some ["other"]) = [some "other"] :=
  (c1_amended "pinned" ["other"] (by decide)).1

/-- Claim C2 (code bug): on a zero-exit stdout stream that is valid JSON but
not a JSON object (the bare number `5`), the public operation does not return
a string — `data.get` raises AttributeError, which the direct-parse path does
not catch, so the exception escapes `run_gemini`. -/
theorem c2_nonobject_stdout_raises :
    run_gemini true "p" "" none none 120 0 none worldNumOut = .error () ∧
    call_gemini 120 (.exited 0 "5" "") = .error () :=
  ⟨rfl, rfl⟩

/-- Claim C3 counterexample: with a pinned candidate, a continuation token
and a transiently failing first attempt, the retry (the second attempt of the
same first candidate) is again invoked with the caller token `tok`, not with
no token — the claim that only the very first attempt carries the token is
false. -/
theorem c3_counterexample :
    run_gemini true "p" "" (some "M") none 120 0 (some "tok") worldQuotaThenOk =
      .ok ("ok", [⟨0, some "M", some "tok"⟩, ⟨0, some "M", some "tok"⟩]) ∧
    (⟨0, some "M", some "tok"⟩ : CallRec).session_id ≠ none :=
  ⟨rfl, by decide⟩

/-- Claim C3 (amended): the caller continuation token is supplied to every
attempt (first and retries) of the first candidate, and every attempt against
any subsequent candidate is invoked with no continuation token. -/
theorem c3_amended (found : Bool) (prompt context : String)
    (model : Option String) (models : Option (List String)) (timeout : Int)
    (sk : Nat) (sid : Option String) (world : Nat → ProcResult) (s : String)
    (tr : List CallRec) (rec : CallRec)
    (h : run_gemini found prompt context model models timeout sk sid world =
      .ok (s, tr)) (hrec : rec ∈ tr) :
    rec.session_id = if rec.cand_idx = 0 then sid else none := by
  cases found with
  | false =>
    have h' : (Except.ok ("Error: gemini CLI not found in PATH",
        ([] : List CallRec)) : Except Unit (String × List CallRec)) =
        .ok (s, tr) := h
    simp only [Except.ok.injEq, Prod.mk.injEq] at h'
    rcases h' with ⟨_, htr⟩
    rw [← htr] at hrec
    cases hrec
  | true =>
    have h' : runLoop world timeout sk (toTry model models) 0 0 sid [] =
        .ok (s, tr) := h
    exact runLoop_session h' rec hrec

/-- Witness for the amended claim C3: in the concrete retry run, the second
attempt of the first candidate carries the caller token. -/
theorem c3_amended_witness :
    (⟨0, some "M", some "tok"⟩ : CallRec).session_id =
      (if (⟨0, some "M", some "tok"⟩ : CallRec).cand_idx = 0 then some "tok"
       else none) :=
  c3_amended true "p" "" (some "M") none 120 0 (some "tok") worldQuotaThenOk
    "ok" [⟨0, some "M", some "tok"⟩, ⟨0, some "M", some "tok"⟩]
    ⟨0, some "M", some "tok"⟩ rfl (by decide)

/-- Claim C4: the classifier yields Transient (retry, i.e.
`should_fallback = false`) whenever any transient pattern matches, even when
a permanent pattern also matches; Permanent when no transient pattern matches
and a permanent one does; and the Permanent-like fallback default when
neither set matches. -/
theorem c4_classifier (msg : String) :
    (transientMatch msg = true →
      classifySpec msg = .transient ∧ should_fallback msg = false) ∧
    (transientMatch msg = false → permanentMatch msg = true →
      classifySpec msg = .permanent ∧ should_fallback msg = true) ∧
    (transientMatch msg = false → permanentMatch msg = false →
      classifySpec msg = .unknown ∧ should_fallback msg = true) := by
  refine ⟨?_, ?_, ?_⟩
  · intro h1
    rw [should_fallback_eq]
    unfold classifySpec
    simp [h1]
  · intro h1 h2
    rw [should_fallback_eq]
    unfold classifySpec
    simp [h1, h2]
  · intro h1 h2
    rw [should_fallback_eq]
    unfold classifySpec
    simp [h1, h2]

/-- Witness for claim C4 at three concrete failure texts: one matching both
pattern sets (transient wins), one matching only a permanent pattern, and one
matching neither. -/
theorem c4_witness :
    transientMatch "429 deprecated" = true ∧
    permanentMatch "429 deprecated" = true ∧
    classifySpec "429 deprecated" = .transient ∧
    should_fallback "429 deprecated" = false ∧
    classifySpec "model not found" = .permanent ∧
    should_fallback "model not found" = true ∧
    classifySpec "mystery" = .unknown ∧
    should_fallback "mystery" = true := by
  have h1 := (c4_classifier "429 deprecated").1 (by decide)
  have h2 := (c4_classifier "model not found").2.1 (by decide) (by decide)
  have h3 := (c4_classifier "mystery").2.2 (by decide) (by decide)
  exact ⟨by decide, by decide, h1.1, h1.2, h2.1, h2.2, h3.1, h3.2⟩

/-- Claim C5: every candidate receives at most `_MAX_RETRIES + 1 = 3`
invocation attempts; the candidate list `[A, B]` with A failing permanently
and B succeeding makes exactly 2 attempts (and warns); a pinned candidate
failing transiently twice then succeeding makes exactly 3 attempts, the first
success ending the orchestration. -/
theorem c5_retry_budget :
    (∀ (world : Nat → ProcResult) (prompt context : String)
      (model : Option String) (models : Option (List String)) (timeout : Int)
      (sk : Nat) (sid : Option String) (s : String) (tr : List CallRec),
      run_gemini true prompt context model models timeout sk sid world =
        .ok (s, tr) →
      ∀ i, (tr.filter (fun r => r.cand_idx == i)).length ≤ MAX_RETRIES + 1) ∧
    (run_gemini true "p" "" none (some ["A", "B"]) 120 0 none worldPermThenOk =
      .ok ("[WARNING: Fell back to B]\n  - A: model not found\n\nok",
        [⟨0, some "A", none⟩, ⟨1, some "B", none⟩])) ∧
    (run_gemini true "p" "" (some "M") none 120 0 none worldTransTwice =
      .ok ("ok", [⟨0, some "M", none⟩, ⟨0, some "M", none⟩, ⟨0, some "M", none⟩])) := by
  refine ⟨?_, rfl, rfl⟩
  intro world prompt context model models timeout sk sid s tr h i
  have h' : runLoop world timeout sk (toTry model models) 0 0 sid [] =
      .ok (s, tr) := h
  exact runLoop_filter_le h' i

/-- Witness for claim C5: the pinned transient scenario run has exactly three
records for candidate 0, within the retry budget. -/
theorem c5_witness :
    (([⟨0, some "M", none⟩, ⟨0, some "M", none⟩, ⟨0, some "M", none⟩] :
        List CallRec).filter (fun r => r.cand_idx == 0)).length ≤
      MAX_RETRIES + 1 :=
  c5_retry_budget.1 worldTransTwice "p" "" (some "M") none 120 0 none "ok"
    [⟨0, some "M", none⟩, ⟨0, some "M", none⟩, ⟨0, some "M", none⟩] rfl 0

/-- Claim C6: when every invocation fails, the orchestrator returns exactly
the text of the last failure encountered (the failure text of the final
invocation, with no warning block and no metadata footer), and on an empty
candidate list the loop returns the literal no-models message (the code
literal is `Error: no models to try`; the specification names the same
message in its backend vocabulary). -/
theorem c6_exhaustion :
    (∀ (world : Nat → ProcResult) (timeout : Int) (prompt context : String)
      (model : Option String) (models : Option (List String)) (sk : Nat)
      (sid : Option String),
      worldAllFail world timeout →
      ∃ n tr, run_gemini true prompt context model models timeout sk sid world =
          .ok (failTextAt world timeout n, tr) ∧ tr.length = n + 1) ∧
    (∀ (world : Nat → ProcResult) (timeout : Int) (sk cidx k : Nat)
      (sid : Option String),
      runLoop world timeout sk [] cidx k sid [] =
        .ok ("Error: no models to try", [])) := by
  constructor
  · intro world timeout prompt context model models sk sid hW
    rcases runLoop_allfail hW (toTry_ne_nil model models) 0 0 sid [] with
      ⟨n, tr, heq, hlen⟩
    rw [Nat.zero_add] at heq
    exact ⟨n, tr, heq, hlen⟩
  · intro world timeout sk cidx k sid
    rfl

/-- Witness for claim C6 at a world whose every invocation exits nonzero. -/
theorem c6_witness :
    ∃ n tr, run_gemini true "p" "" none none 120 0 none worldAllBoom =
        .ok (failTextAt worldAllBoom 120 n, tr) ∧ tr.length = n + 1 :=
  c6_exhaustion.1 worldAllBoom 120 "p" "" none none 0 none
    (fun _ => ⟨"Error: gemini CLI exited with code 1: boom", rfl⟩)

/-- Claim C7 (code bug): when the whole trimmed stdout is valid JSON but not
an object (the array `[1, 2]`), the invoker raises instead of falling through
to the backward line scan; the scan itself works as claimed on a noise line
followed by a JSON object, and a stream with no JSON anywhere degrades to the
full trimmed text as a successful plain-text answer with no statistics. -/
theorem c7_parse_paths :
    call_gemini 120 (.exited 0 "[1, 2]" "") = .error () ∧
    call_gemini 120 (.exited 0 "noise line\n\x7b\"response\":\"ok\"\x7d" "") =
      .ok (true, "ok", none) ∧
    call_gemini 120 (.exited 0 "not json at all" "") =
      .ok (true, "not json at all", none) :=
  ⟨rfl, rfl, rfl⟩

/-- Claim C8: statistics extraction returns nothing when the per-backend
usage mapping is absent or empty (and the metadata formatter then produces no
footer); with several entries it returns the name and token counts of an
entry whose output-token count is maximal (the first such, as Python `max`
keeps the first of equals); and the payload of the round-trip example yields
outcome `(true, "hello", none)`. -/
theorem c8_stats :
    (∀ (ffrom : Option String) (sk : Nat), format_metadata none ffrom sk = none) ∧
    (∀ (data skvs : List (String × JValue)),
      objGet data "stats" (.jobj []) = .jobj skvs →
      jTruthy (objGet skvs "models" (.jobj [])) = false →
      extract_stats data = .ok none) ∧
    (∀ (data skvs mkvs : List (String × JValue)) (st : StatsD),
      objGet data "stats" (.jobj []) = .jobj skvs →
      objGet skvs "models" (.jobj []) = .jobj mkvs →
      (mkvs.map Prod.fst).Nodup →
      extract_stats data = .ok (some st) →
      ∃ p ∈ mkvs, st.model = p.1 ∧
        st.input_tokens = objGet (entryTokens p.2) "input" (.jnum 0) ∧
        st.output_tokens = objGet (entryTokens p.2) "candidates" (.jnum 0) ∧
        ∀ q ∈ mkvs, candVal q.2 ≤ candVal p.2) ∧
    (call_gemini 120 (.exited 0 helloPayload "") = .ok (true, "hello", none)) ∧
    (extract_stats twoModelData =
      .ok (some ⟨"gemini-3-flash-preview", .jnum 8000, .jnum 1333, none⟩)) := by
  refine ⟨fun _ _ => rfl, ?_, ?_, rfl, rfl⟩
  · intro data skvs h1 h2
    exact extract_stats_none h1 h2
  · intro data skvs mkvs st h1 h2 h3 h4
    exact extract_stats_argmax h1 h2 h3 h4

/-- Witness for claim C8: the argmax clause applied to the concrete two-entry
payload, whose 1333-output entry is selected over the 10-output one. -/
theorem c8_witness :
    ∃ p ∈ twoModels,
      (⟨"gemini-3-flash-preview", .jnum 8000, .jnum 1333, none⟩ : StatsD).model =
        p.1 ∧
      (⟨"gemini-3-flash-preview", .jnum 8000, .jnum 1333, none⟩ : StatsD).input_tokens =
        objGet (entryTokens p.2) "input" (.jnum 0) ∧
      (⟨"gemini-3-flash-preview", .jnum 8000, .jnum 1333, none⟩ : StatsD).output_tokens =
        objGet (entryTokens p.2) "candidates" (.jnum 0) ∧
      ∀ q ∈ twoModels, candVal q.2 ≤ candVal p.2 :=
  c8_stats.2.2.1 twoModelData
    [("models", .jobj twoModels)] twoModels
    ⟨"gemini-3-flash-preview", .jnum 8000, .jnum 1333, none⟩
    rfl rfl (by decide) rfl

/-- Claim C9: when the executable is not resolvable, the orchestrator returns
a string containing `not found` immediately, with zero invocations (an empty
trace): nothing is retried, nothing falls back, and no failure text ever
reaches the classifier. -/
theorem c9_tool_not_found (prompt context : String) (model : Option String)
    (models : Option (List String)) (timeout : Int) (sk : Nat)
    (sid : Option String) (world : Nat → ProcResult) :
    run_gemini false prompt context model models timeout sk sid world =
      .ok ("Error: gemini CLI not found in PATH", []) ∧
    searchSub "not found".data ("Error: gemini CLI not found in PATH").data =
      true :=
  ⟨rfl, by decide⟩

/-- Claim C10: for every timeout value, the timed-out failure text matches no
transient and no permanent pattern, is therefore classified toward fallback,
and a timed-out attempt ends its candidate immediately after one invocation —
no retry happens on that candidate. -/
theorem c10_timeout_fallback (timeout : Int) :
    transientMatch (timeoutMsg timeout) = false ∧
    permanentMatch (timeoutMsg timeout) = false ∧
    should_fallback (timeoutMsg timeout) = true ∧
    ∀ (world : Nat → ProcResult) (m sid : Option String) (cidx k : Nat),
      world k = ProcResult.timeout →
      call_with_retries world timeout m sid cidx k =
        .ok ((false, timeoutMsg timeout, none), k + 1,
          [⟨cidx, m, sid⟩]) := by
  have hsf : should_fallback (timeoutMsg timeout) = true := by
    rw [should_fallback_eq, transientMatch_timeout, permanentMatch_timeout]
    simp
  refine ⟨transientMatch_timeout timeout, permanentMatch_timeout timeout, hsf, ?_⟩
  intro world m sid cidx k hk
  show cwrAux world timeout m sid cidx (MAX_RETRIES + 1) k "" = _
  rw [cwrAux_succ, hk]
  simp [call_gemini, hsf]

/-- Witness for claim C10 at a concrete timed-out world. -/
theorem c10_witness :
    call_with_retries (fun _ => ProcResult.timeout) 120 (some "M") none 0 0 =
      .ok ((false, timeoutMsg 120, none), 0 + 1,
        [⟨0, some "M", none⟩]) :=
  (c10_timeout_fallback 120).2.2.2 (fun _ => ProcResult.timeout) (some "M")
    none 0 0 rfl

end GeminiMcp
